import Mathlib

/-!
Shallow embedding of the py3status `xrandr` module (py3status/modules/xrandr.py).

Python strings are modelled as `List Char`; the per-instance attributes of the
`Py3status` class are split into a read-only `Config` (configuration
parameters and the per-output dynamic hints) and a mutable `XState` threaded
explicitly through every method.  External effects (the `xrandr` apply call,
`i3-msg` workspace commands, the `killall` refresh signal) are modelled as an
emitted list of `ExtCall`s, with the exit status of the layout command given
as an oracle parameter.  Python exceptions raised by the modelled code
(`TypeError` from formatting `None`, `IndexError` from indexing an empty
deque) are modelled with `Except Err`.
-/

namespace Xrandr

/-- Output identifiers are Python strings, modelled as lists of characters. -/
abbrev OutputId := List Char

/-- A display string (the canonical string of a combination). -/
abbrev DString := List Char

/-- The two named layout modes `'clone'` and `'extend'`; the mode component of a
stored combination is `Option Mode`, with `none` standing for Python `None`
(used for single-output combinations). -/
inductive Mode where
  | clone
  | extend
deriving DecidableEq

/-- Python `s.rstrip(chars)`: remove all trailing characters of `s` that occur
in `chars` (the argument is treated as a set of characters). -/
def rstrip (chars : List Char) (s : List Char) : List Char :=
  (s.reverse.dropWhile (fun c => chars.contains c)).reverse

/-- Python `sep.join(parts)`. -/
def pyJoin (sep : List Char) : List (List Char) → List Char
  | [] => []
  | [x] => x
  | x :: y :: rest => x ++ sep ++ pyJoin sep (y :: rest)

/-- Python `entry in s` for strings: contiguous-substring test. -/
def isSeg (needle : List Char) : List Char → Bool
  | [] => needle.isEmpty
  | c :: rest => needle.isPrefixOf (c :: rest) || isSeg needle rest

/-- The configuration parameters of the module, with their source defaults,
plus the dynamic per-output `<OUTPUT>_pos` / `<OUTPUT>_workspaces` attributes
(`getattr(self, ..., default)` is modelled by an optional lookup). -/
structure Config where
  formatClone : List Char := ['=']
  formatExtend : List Char := ['+']
  fallback : Bool := true
  fixedWidth : Bool := true
  forceOnStart : Option DString := none
  posHint : OutputId → Option (List Char) := fun _ => none
  wsHint : OutputId → Option (List Char) := fun _ => none

/-- A `Py3status` instance with every configuration parameter left at its
source default. -/
def defaultCfg : Config := {}

/-- `_separator(mode)`, as used through `'{}'.format(...)`: `'clone'` and
`'extend'` select the configured separators, and Python `None` formats as the
string `"None"` (the method falls through and returns `None` for any other
mode). -/
def separatorOpt (cfg : Config) : Option Mode → List Char
  | some Mode.clone => cfg.formatClone
  | some Mode.extend => cfg.formatExtend
  | none => ['N', 'o', 'n', 'e']

/-- The string computed by `_get_string_and_set_width`:
`sep.join(combination).rstrip(sep)`. -/
def getString (sep : List Char) (comb : List OutputId) : DString :=
  rstrip sep (pyJoin sep comb)

/-- `_get_string_and_set_width`: returns the display string and the updated
`max_width`. -/
def getStringAndSetWidth (sep : List Char) (comb : List OutputId) (w : Nat) :
    DString × Nat :=
  let s := getString sep comb
  (s, max w s.length)

/-- The (display string, (combination, mode)) entries produced by the loops of
`_set_available_combinations`: for every subset size, for every
`itertools.combinations` subset of the connected outputs, for `mode` in
`['clone', 'extend']`.  `itertools.combinations(keys, r)` yields exactly the
length-`r` subsequences of the key list (modelled by `List.sublistsLen`; the
enumeration order differs but the resulting set and dict do not depend on it).
A single-output subset is stored with mode `None`. -/
def generateEntries (cfg : Config) (connected : List OutputId) :
    List (DString × (List OutputId × Option Mode)) :=
  ((List.range (connected.length + 1)).flatMap
      (fun r => List.sublistsLen r connected)).flatMap
    (fun comb =>
      if comb.isEmpty then []
      else
        [Mode.clone, Mode.extend].map (fun m =>
          (getString (separatorOpt cfg (some m)) comb,
            (comb, if comb.length = 1 then none else some m))))

/-- Lookup in `combinations_map`.  The Python dict is built by repeated
assignment, so the last write for a key wins. -/
def lookupMap (m : List (DString × (List OutputId × Option Mode))) (k : DString) :
    Option (List OutputId × Option Mode) :=
  m.reverse.lookup k

/-- The mutable instance state of the module. -/
structure XState where
  activeComb : Option (List OutputId)
  activeLayout : Option DString
  activeMode : Option Mode
  displayed : Option DString
  maxWidth : Nat
  forceOnStart : Option DString
  connectedIds : List OutputId
  disconnectedIds : List OutputId
  available : List DString
  combinationsMap : List (DString × (List OutputId × Option Mode))
deriving DecidableEq

/-- One parsed output record of the topology snapshot: its identifier and
whether `xrandr` reported an active mode for it.  (Parsing the raw text is an
external concern; the module consumes exactly this information.) -/
structure TopoEntry where
  id : OutputId
  hasActiveMode : Bool
deriving DecidableEq

/-- The topology snapshot for one cycle, in detection order. -/
structure Topology where
  connected : List TopoEntry
  disconnected : List OutputId
deriving DecidableEq

/-- The state after `__init__`. -/
def initState (cfg : Config) : XState where
  activeComb := none
  activeLayout := none
  activeMode := some Mode.extend
  displayed := none
  maxWidth := 0
  forceOnStart := cfg.forceOnStart
  connectedIds := []
  disconnectedIds := []
  available := []
  combinationsMap := []

/-- `_get_layout`: record the connected/disconnected output ids (the layout
dicts deduplicate on id, keeping first occurrence) and, on the very first
cycle only (`active_layout is None`), initialize `active_comb`/`active_layout`
from the outputs that carry an active mode. -/
def getLayoutStep (cfg : Config) (topo : Topology) (st : XState) : XState :=
  let connectedIds := (topo.connected.map (·.id)).dedup
  let disconnectedIds := topo.disconnected.dedup
  let activeList := (topo.connected.filter (·.hasActiveMode)).map (·.id)
  let st1 := { st with connectedIds := connectedIds, disconnectedIds := disconnectedIds }
  if st1.activeLayout = none then
    let p := getStringAndSetWidth (separatorOpt cfg st1.activeMode) activeList st1.maxWidth
    { st1 with activeComb := some activeList, activeLayout := some p.1, maxWidth := p.2 }
  else st1

/-- `_set_available_combinations`: rebuild `available_combinations` (a deque of
the set of generated strings; Python's set order is unspecified, modelled as
first-occurrence dedup of the generation order), `combinations_map`, and
`max_width` (reset to 0, then the maximum over every generated string). -/
def setAvailableCombinations (cfg : Config) (st : XState) : XState :=
  let entries := generateEntries cfg st.connectedIds
  { st with
    maxWidth := entries.foldl (fun w e => max w e.1.length) 0
    available := (entries.map (·.1)).dedup
    combinationsMap := entries }

/-- Python exceptions the modelled code can raise. -/
inductive Err where
  | typeError
  | indexError
deriving DecidableEq

/-- Python `deque.rotate(n)`: rotate right by `n` (left for negative `n`);
`List.rotate` rotates left, so rotate left by `(-n) mod length`. -/
def dequeRotate (n : Int) (l : List α) : List α :=
  if l.length = 0 then l
  else l.rotate (Int.toNat ((-n) % (l.length : Int)))

/-- The `for`/`else` loop of `_choose_what_to_display`: at most one full
revolution; returns the (possibly re-assigned) `displayed`, the rotated ring,
and whether the loop ended with `break`. -/
def chooseLoop (active : Option DString) :
    Option DString → List DString → Nat → Option DString × List DString × Bool
  | displayed, ring, 0 => (displayed, ring, false)
  | displayed, [], _ + 1 => (displayed, [], false)
  | displayed, h :: t, fuel + 1 =>
    if displayed = none ∧ some h = active then (some h, h :: t, true)
    else if displayed = some h then (displayed, h :: t, true)
    else chooseLoop active displayed (dequeRotate 1 (h :: t)) fuel

/-- `_choose_what_to_display(force_refresh)`.  When the loop exhausts without a
`break` and a forced refresh was requested, `available_combinations[0]` on an
empty deque raises `IndexError`; without force it only logs a warning. -/
def chooseWhatToDisplay (force : Bool) (st : XState) : Except Err XState :=
  match chooseLoop st.activeLayout st.displayed st.available st.available.length with
  | (d, ring, true) => Except.ok { st with displayed := d, available := ring }
  | (d, ring, false) =>
    if force then
      match ring.head? with
      | some h => Except.ok { st with displayed := some h, available := ring }
      | none => Except.error Err.indexError
    else Except.ok { st with displayed := d, available := ring }

/-- `_center(s)` for an actual string `s`: `'{:^%d}' % max_width` centering
(Python puts the extra padding character on the right). -/
def centerText (w : Nat) (s : DString) : DString :=
  if w ≤ s.length then s
  else
    let total := w - s.length
    let left := total / 2
    List.replicate left ' ' ++ s ++ List.replicate (total - left) ' '

/-- The default position hint `'0x0'`. -/
def defaultPos : List Char := ['0', 'x', '0']

/-- The relational-position test of `_apply`:
`'above' in pos or 'below' in pos or 'left-of' in pos or 'right-of' in pos`. -/
def isRelationalPos (pos : List Char) : Bool :=
  isSeg ['a', 'b', 'o', 'v', 'e'] pos || isSeg ['b', 'e', 'l', 'o', 'w'] pos ||
  isSeg ['l', 'e', 'f', 't', '-', 'o', 'f'] pos ||
  isSeg ['r', 'i', 'g', 'h', 't', '-', 'o', 'f'] pos

/-- The per-output directive appended to the `xrandr` command by `_apply`:
either `--off`, or `--auto --same-as PREV`, or `--auto --POS --rotate normal`,
or `--auto --pos POS --rotate normal`. -/
inductive XAction where
  | off
  | sameAs (prev : OutputId)
  | rel (pos : List Char)
  | abs (pos : List Char)
deriving DecidableEq

/-- One `--output OUTPUT ...` block of the synthesized command. -/
structure Block where
  output : OutputId
  action : XAction
deriving DecidableEq

/-- The action chosen by `_apply` for an output that is in the combination,
given the `previous_output` tracker. -/
def blockAction (cfg : Config) (mode : Option Mode) (prev : Option OutputId)
    (o : OutputId) : XAction :=
  let pos := (cfg.posHint o).getD defaultPos
  match mode, prev with
  | some Mode.clone, some p => XAction.sameAs p
  | _, _ => if isRelationalPos pos then XAction.rel pos else XAction.abs pos

/-- The command-building loop of `_apply`, threading `previous_output`. -/
def synthGo (cfg : Config) (combination : List OutputId) (mode : Option Mode) :
    Option OutputId → List OutputId → List Block
  | _, [] => []
  | prev, o :: rest =>
    if o ∈ combination then
      ⟨o, blockAction cfg mode prev o⟩ :: synthGo cfg combination mode (some o) rest
    else
      ⟨o, XAction.off⟩ :: synthGo cfg combination mode prev rest

/-- The full synthesized command of `_apply` (the `'xrandr'` head string plus
the concatenation, in order, of these per-output blocks): one block for every
output of `connected` keys followed by `disconnected` keys. -/
def applyCmdBlocks (cfg : Config) (combination : List OutputId) (mode : Option Mode)
    (st : XState) : List Block :=
  synthGo cfg combination mode none (st.connectedIds ++ st.disconnectedIds)

/-- External commands issued by the module, in order. -/
inductive ExtCall where
  | xrandrApply (blocks : List Block)
  | i3Switch (workspace : List Char)
  | i3Move (output : OutputId)
  | refresh
deriving DecidableEq

/-- `_apply_workspaces(combination, mode)`: for an extend-mode combination of
at least two outputs, for every member output in combination order, split its
workspaces hint on `','` (Python `getattr` default `''`, and `''.split(',')`
is `['']`), skip empty entries, and emit the switch/move command pair. -/
def applyWorkspaces (cfg : Config) (combination : List OutputId) (mode : Option Mode) :
    List ExtCall :=
  if 1 < combination.length ∧ mode = some Mode.extend then
    combination.flatMap (fun o =>
      (((cfg.wsHint o).getD []).splitOn ',').flatMap (fun w =>
        if w.isEmpty then []
        else [ExtCall.i3Switch w, ExtCall.i3Move o]))
  else []

/-- `_apply(force)`: `code` is the exit status reported by the external layout
command.  Returns the new state and the external calls issued (none at all
when one of the two early returns fires). -/
def applyFn (cfg : Config) (code : Int) (force : Bool) (st : XState) :
    XState × List ExtCall :=
  if st.displayed = st.activeLayout ∧ force = false then (st, [])
  else
    match st.displayed with
    | none => (st, [])
    | some d =>
      match lookupMap st.combinationsMap d with
      | none => (st, [])
      | some cm =>
        let blocks := applyCmdBlocks cfg cm.1 cm.2 st
        let st1 :=
          if code = 0 then
            { st with activeComb := some cm.1, activeLayout := some d, activeMode := cm.2 }
          else st
        (st1, ExtCall.xrandrApply blocks :: applyWorkspaces cfg cm.1 cm.2)

/-- `_switch_selection(direction)`: rotate the deque and take its new head
(`IndexError` on an empty deque). -/
def switchSelection (dir : Int) (st : XState) : Except Err XState :=
  let ring := dequeRotate dir st.available
  match ring.head? with
  | some h => Except.ok { st with available := ring, displayed := some h }
  | none => Except.error Err.indexError

/-- `n` repetitions of `_switch_selection(dir)`. -/
def switchN (dir : Int) : Nat → XState → Except Err XState
  | 0, st => Except.ok st
  | n + 1, st => Except.bind (switchSelection dir st) (switchN dir n)

/-- Python `x in deque` where `x` may be `None` (`None` is never an element). -/
def optMem (x : Option DString) (l : List DString) : Bool :=
  match x with
  | none => false
  | some s => decide (s ∈ l)

/-- `_fallback_to_available_output`: fires only when the active combination
has exactly one output; `len(None)` would raise `TypeError`.  Returns the new
state, whether the fallback body ran, and the external calls issued. -/
def fallbackToAvailableOutput (cfg : Config) (code : Int) (st : XState) :
    Except Err (XState × Bool × List ExtCall) :=
  match st.activeComb with
  | none => Except.error Err.typeError
  | some ac =>
    if ac.length = 1 then
      Except.bind (chooseWhatToDisplay true st) (fun st1 =>
        let r := applyFn cfg code false st1
        Except.ok (r.1, true, r.2 ++ [ExtCall.refresh]))
    else Except.ok (st, false, [])

/-- The colors the module can attach to its response. -/
inductive Color where
  | good
  | bad
  | degraded
deriving DecidableEq

/-- The response dict (minus `cached_until`, which only encodes wall-clock
polling). -/
structure Response where
  fullText : Option DString
  color : Option Color
deriving DecidableEq

/-- The fallback-detection tail of the `xrandr` method: when the active layout
is not among the available combinations the response is flagged degraded and,
if the `fallback` parameter is set, `_fallback_to_available_output` runs.
Returns state, the degraded color if set, whether fallback fired, calls. -/
def fallbackGuardStep (cfg : Config) (code : Int) (st : XState) :
    Except Err (XState × Option Color × Bool × List ExtCall) :=
  if optMem st.activeLayout st.available then Except.ok (st, none, false, [])
  else if cfg.fallback then
    Except.bind (fallbackToAvailableOutput cfg code st) (fun r =>
      Except.ok (r.1, some Color.degraded, r.2.1, r.2.2))
  else Except.ok (st, some Color.degraded, false, [])

/-- The force-on-start block of the `xrandr` method plus
`_force_force_on_start`: one-shot, fires only while the configured string is
present in the available set. -/
def forceOnStartStep (cfg : Config) (code : Int) (st : XState) :
    Except Err (XState × List ExtCall) :=
  match st.forceOnStart with
  | none => Except.ok (st, [])
  | some f =>
    if f ∈ st.available then
      let st1 := { st with displayed := some f, forceOnStart := none }
      Except.bind (chooseWhatToDisplay true st1) (fun st2 =>
        let r := applyFn cfg code true st2
        Except.ok (r.1, r.2 ++ [ExtCall.refresh]))
    else Except.ok (st, [])

/-- One full refresh cycle: the `xrandr` method.  `_center(None)` — reached
whenever `fixed_width` is set and `displayed` was never assigned — raises
`TypeError` (`'{:^N}'.format(None)` is unsupported for `NoneType`). -/
def xrandrCycle (cfg : Config) (topo : Topology) (code : Int) (st : XState) :
    Except Err (XState × Response × List ExtCall) :=
  let st1 := setAvailableCombinations cfg (getLayoutStep cfg topo st)
  Except.bind (chooseWhatToDisplay false st1) (fun st2 =>
    Except.bind
      (match st2.displayed, cfg.fixedWidth with
        | none, true => Except.error Err.typeError
        | some s, true => Except.ok (some (centerText st2.maxWidth s))
        | d, false => Except.ok d)
      (fun fullText =>
        let color1 : Option Color :=
          if st2.displayed = st2.activeLayout then some Color.good
          else if optMem st2.displayed st2.available = false then some Color.bad
          else none
        Except.bind (forceOnStartStep cfg code st2) (fun p1 =>
          Except.bind (fallbackGuardStep cfg code p1.1) (fun p2 =>
            Except.ok (p2.1, ⟨fullText, (p2.2.1).orElse (fun _ => color1)⟩,
              p1.2 ++ p2.2.2.2)))))

/-! ### Claim C3: apply failure does not advance the selection state -/

/-- C3.  For every Apply attempt in which the external layout command reports
a non-zero exit status, the in-memory selection state (indeed the whole state)
is exactly its pre-apply value afterward; and on an attempt that actually
issues the command (both early-return guards pass), the state is advanced to
`active := displayed` (combination, layout string and mode recorded) exactly
when the command reports status 0. -/
theorem c3_apply_failure_preserves_state (cfg : Config) (code : Int) (force : Bool)
    (st : XState) :
    (code ≠ 0 → (applyFn cfg code force st).1 = st) ∧
    (∀ d cm, code = 0 → st.displayed = some d →
      ¬(st.displayed = st.activeLayout ∧ force = false) →
      lookupMap st.combinationsMap d = some cm →
      (applyFn cfg code force st).1 =
        { st with activeComb := some cm.1, activeLayout := some d, activeMode := cm.2 }) := by
  constructor
  · intro hc
    unfold applyFn
    split
    · rfl
    · split
      · rfl
      · split
        · rfl
        · simp only [if_neg hc]
  · intro d cm hc hd hguard hlook
    unfold applyFn
    rw [if_neg hguard, hd]
    simp only [hlook, hc, if_pos]

/-- Witness for C3 at a concrete state: with the displayed combination `"A"`
looked up in the map and differing from the active layout, exit status 1
leaves the state untouched while exit status 0 advances it. -/
theorem c3_apply_failure_preserves_state_witness :
    (applyFn defaultCfg 1 false
        { activeComb := some [], activeLayout := some [], activeMode := some Mode.extend,
          displayed := some [' '], maxWidth := 0, forceOnStart := none,
          connectedIds := [[' ']], disconnectedIds := [], available := [[' ']],
          combinationsMap := [([' '], ([[' ']], none))] }).1 =
      { activeComb := some [], activeLayout := some [], activeMode := some Mode.extend,
        displayed := some [' '], maxWidth := 0, forceOnStart := none,
        connectedIds := [[' ']], disconnectedIds := [], available := [[' ']],
        combinationsMap := [([' '], ([[' ']], none))] } ∧
    (applyFn defaultCfg 0 false
        { activeComb := some [], activeLayout := some [], activeMode := some Mode.extend,
          displayed := some [' '], maxWidth := 0, forceOnStart := none,
          connectedIds := [[' ']], disconnectedIds := [], available := [[' ']],
          combinationsMap := [([' '], ([[' ']], none))] }).1 =
      { activeComb := some [[' ']], activeLayout := some [' '], activeMode := none,
        displayed := some [' '], maxWidth := 0, forceOnStart := none,
        connectedIds := [[' ']], disconnectedIds := [], available := [[' ']],
        combinationsMap := [([' '], ([[' ']], none))] } := by
  refine ⟨(c3_apply_failure_preserves_state defaultCfg 1 false _).1 (by decide), ?_⟩
  exact (c3_apply_failure_preserves_state defaultCfg 0 false _).2 [' '] ([[' ']], none)
    rfl rfl (by decide) (by decide)

/-! ### Claim C4: Apply is a no-op when displayed equals active and not forced -/

/-- C4.  Whenever `displayed` equals the active layout string, a non-forced
Apply issues no external command and leaves the whole state unchanged; in
particular a second non-forced Apply right after is also a no-op. -/
theorem c4_apply_idempotence (cfg : Config) (code code' : Int) (st : XState)
    (h : st.displayed = st.activeLayout) :
    applyFn cfg code false st = (st, []) ∧
    applyFn cfg code' false (applyFn cfg code false st).1 = (st, []) := by
  have h1 : applyFn cfg code false st = (st, []) := by
    unfold applyFn
    rw [if_pos ⟨h, rfl⟩]
  refine ⟨h1, ?_⟩
  rw [h1]
  unfold applyFn
  rw [if_pos ⟨h, rfl⟩]

/-- Witness for C4 at a concrete state with `displayed == active`. -/
theorem c4_apply_idempotence_witness :
    applyFn defaultCfg 0 false
        { activeComb := some [[' ']], activeLayout := some [' '], activeMode := some Mode.extend,
          displayed := some [' '], maxWidth := 1, forceOnStart := none,
          connectedIds := [[' ']], disconnectedIds := [], available := [[' ']],
          combinationsMap := [([' '], ([[' ']], none))] } =
      ({ activeComb := some [[' ']], activeLayout := some [' '], activeMode := some Mode.extend,
         displayed := some [' '], maxWidth := 1, forceOnStart := none,
         connectedIds := [[' ']], disconnectedIds := [], available := [[' ']],
         combinationsMap := [([' '], ([[' ']], none))] }, []) := by
  exact (c4_apply_idempotence defaultCfg 0 0 _ rfl).1

/-! ### Claim C10: workspace reassignment runs regardless of the exit status -/

/-- C10.  The list of external calls issued by `_apply` does not depend on the
exit status of the layout command, and on any attempt that issues the command
it is exactly the layout command followed by the workspace-planner actions —
so for an extend-mode combination those actions are still issued after a
failed apply, even though the selection state is not advanced. -/
theorem c10_workspaces_after_failure (cfg : Config) (code : Int) (force : Bool)
    (st : XState) :
    (applyFn cfg code force st).2 = (applyFn cfg 0 force st).2 ∧
    (∀ d cm, st.displayed = some d →
      ¬(st.displayed = st.activeLayout ∧ force = false) →
      lookupMap st.combinationsMap d = some cm →
      (applyFn cfg code force st).2 =
        ExtCall.xrandrApply (applyCmdBlocks cfg cm.1 cm.2 st) ::
          applyWorkspaces cfg cm.1 cm.2) := by
  constructor
  · unfold applyFn
    split
    · rfl
    · split
      · rfl
      · split
        · rfl
        · rfl
  · intro d cm hd hguard hlook
    unfold applyFn
    rw [if_neg hguard, hd]
    simp only [hlook]

/-- Witness for C10: a failed (status 1) apply of the extend combination of
two outputs still issues the switch/move workspace actions. -/
theorem c10_workspaces_after_failure_witness :
    (applyFn
        { wsHint := fun o => if o = ['a'] then some ['1'] else none }
        1 false
        { activeComb := some [], activeLayout := some [], activeMode := some Mode.extend,
          displayed := some ['a', '+', 'b'], maxWidth := 0, forceOnStart := none,
          connectedIds := [['a'], ['b']], disconnectedIds := [], available := [['a', '+', 'b']],
          combinationsMap := [(['a', '+', 'b'], ([['a'], ['b']], some Mode.extend))] }).2 =
      [ExtCall.xrandrApply
          [⟨['a'], XAction.abs defaultPos⟩, ⟨['b'], XAction.abs defaultPos⟩],
        ExtCall.i3Switch ['1'], ExtCall.i3Move ['a']] := by
  have h := (c10_workspaces_after_failure
      { wsHint := fun o => if o = ['a'] then some ['1'] else none } 1 false
      { activeComb := some [], activeLayout := some [], activeMode := some Mode.extend,
        displayed := some ['a', '+', 'b'], maxWidth := 0, forceOnStart := none,
        connectedIds := [['a'], ['b']], disconnectedIds := [], available := [['a', '+', 'b']],
        combinationsMap := [(['a', '+', 'b'], ([['a'], ['b']], some Mode.extend))] }).2
    ['a', '+', 'b'] ([['a'], ['b']], some Mode.extend) rfl (by decide) (by decide)
  rw [h]
  rfl

/-! ### Claim C7: the workspace reassignment planner -/

/-- The configuration of the C7 scenario: `DP1_workspaces = "1,2"`,
`HDMI1_workspaces = ""`. -/
def cfgScenarioC7 : Config :=
  { wsHint := fun o =>
      if o = ['D', 'P', '1'] then some ['1', ',', '2']
      else if o = ['H', 'D', 'M', 'I', '1'] then some []
      else none }

/-- C7.  The planner emits actions only for extend-mode combinations of at
least two outputs; it then emits, for each member output in combination order
and each non-empty comma-separated entry of its workspaces hint in order, the
switch-to-workspace action followed by the move-to-output action; and on the
scenario `combination = [DP1, HDMI1]`, extend mode, `DP1_workspaces = "1,2"`,
`HDMI1_workspaces = ""`, it emits exactly switch 1, move DP1, switch 2,
move DP1. -/
theorem c7_workspace_planner (cfg : Config) (combination : List OutputId)
    (mode : Option Mode) :
    (¬(1 < combination.length ∧ mode = some Mode.extend) →
      applyWorkspaces cfg combination mode = []) ∧
    (1 < combination.length →
      applyWorkspaces cfg combination (some Mode.extend) =
        combination.flatMap (fun o =>
          (((cfg.wsHint o).getD []).splitOn ',').flatMap (fun w =>
            if w.isEmpty then [] else [ExtCall.i3Switch w, ExtCall.i3Move o]))) ∧
    applyWorkspaces cfgScenarioC7 [['D', 'P', '1'], ['H', 'D', 'M', 'I', '1']]
        (some Mode.extend) =
      [ExtCall.i3Switch ['1'], ExtCall.i3Move ['D', 'P', '1'],
        ExtCall.i3Switch ['2'], ExtCall.i3Move ['D', 'P', '1']] := by
  refine ⟨fun h => ?_, fun h => ?_, by decide⟩
  · unfold applyWorkspaces
    rw [if_neg h]
  · unfold applyWorkspaces
    rw [if_pos ⟨h, rfl⟩]

/-- Witness for C7: a clone-mode two-output combination yields no actions, and
a single-output extend layout yields no actions. -/
theorem c7_workspace_planner_witness :
    applyWorkspaces cfgScenarioC7 [['D', 'P', '1'], ['H', 'D', 'M', 'I', '1']]
        (some Mode.clone) = [] ∧
    applyWorkspaces cfgScenarioC7 [['D', 'P', '1']] (some Mode.extend) = [] := by
  exact ⟨(c7_workspace_planner cfgScenarioC7 _ (some Mode.clone)).1 (by decide),
    (c7_workspace_planner cfgScenarioC7 _ (some Mode.extend)).1 (by decide)⟩

/-! ### Claims C2 and C9: the first-cycle scenario -/

/-- The C2/C9 scenario topology: `connected = [eDP1, DP1]`, no disconnected
output, and no connected output carries an active mode. -/
def topoFirstCycle : Topology :=
  ⟨[⟨['e', 'D', 'P', '1'], false⟩, ⟨['D', 'P', '1'], false⟩], []⟩

/-- The state after detection and combination generation on the first cycle of
the scenario. -/
def stFirstCycle : XState :=
  setAvailableCombinations defaultCfg
    (getLayoutStep defaultCfg topoFirstCycle (initState defaultCfg))

/-- C2, counterexample.  On the scenario's first cycle the available set does
NOT contain the display string `"DP1+eDP1"` (nor `"DP1=eDP1"`): the generator
enumerates subsets of the connected outputs, never permutations, so only 4
display strings exist, not the claimed 6. -/
theorem c2_counterexample :
    stFirstCycle.available.length = 4 ∧
    ['D', 'P', '1', '+', 'e', 'D', 'P', '1'] ∉ stFirstCycle.available ∧
    ['D', 'P', '1', '=', 'e', 'D', 'P', '1'] ∉ stFirstCycle.available := by
  decide

/-- C2, amended.  On the first detection cycle with
`connected = [eDP1, DP1]`, no disconnected output and no active mode,
`active` initializes to the display string of the empty tuple (the empty
string), and the available set contains exactly the four strings `"eDP1"`,
`"DP1"`, `"eDP1+DP1"`, `"eDP1=DP1"` under the default separators. -/
theorem c2_first_cycle_scenario :
    stFirstCycle.activeComb = some [] ∧
    stFirstCycle.activeLayout = some [] ∧
    stFirstCycle.available.Nodup ∧
    stFirstCycle.available.toFinset =
      {['e', 'D', 'P', '1'], ['D', 'P', '1'],
        ['e', 'D', 'P', '1', '+', 'D', 'P', '1'],
        ['e', 'D', 'P', '1', '=', 'D', 'P', '1']} := by
  decide

/-- C9.  The refresh cycle is NOT exception-free: on the first cycle of the
scenario topology (and likewise with zero connected outputs) the inferred
active layout `""` is not among the available combinations, `displayed` is
never assigned, and centering `None` to the fixed width raises `TypeError`,
so the cycle aborts instead of returning a response. -/
theorem c9_cycle_raises_typeerror :
    xrandrCycle defaultCfg topoFirstCycle 0 (initState defaultCfg) =
      Except.error Err.typeError ∧
    xrandrCycle defaultCfg ⟨[], []⟩ 0 (initState defaultCfg) =
      Except.error Err.typeError := by
  exact ⟨rfl, rfl⟩

/-! ### Claim C6: rotation round-trips -/

theorem dequeRotate_length (n : Int) (l : List α) :
    (dequeRotate n l).length = l.length := by
  unfold dequeRotate
  split
  · rfl
  · exact List.length_rotate l _

theorem dequeRotate_eq_pos (n : Int) (l : List α) (h : l.length ≠ 0) :
    dequeRotate n l = l.rotate (Int.toNat ((-n) % (l.length : Int))) := by
  unfold dequeRotate
  rw [if_neg h]

theorem dequeRotate_inv (d : Int) (l : List α) :
    dequeRotate (-d) (dequeRotate d l) = l := by
  rcases Nat.eq_zero_or_pos l.length with h0 | hpos
  · unfold dequeRotate
    rw [if_pos h0, if_pos h0]
  · have hne : l.length ≠ 0 := Nat.pos_iff_ne_zero.mp hpos
    have hmpos : (0 : Int) < (l.length : Int) := by exact_mod_cast hpos
    have hmne : ((l.length : Int)) ≠ 0 := ne_of_gt hmpos
    rw [dequeRotate_eq_pos d l hne,
      dequeRotate_eq_pos (-d) _ (by rw [List.length_rotate]; exact hne),
      List.length_rotate, List.rotate_rotate, neg_neg]
    set a : Int := (-d) % (l.length : Int) with ha
    set b : Int := d % (l.length : Int) with hb
    have han : 0 ≤ a := Int.emod_nonneg _ hmne
    have hbn : 0 ≤ b := Int.emod_nonneg _ hmne
    have halt : a < (l.length : Int) := Int.emod_lt_of_pos _ hmpos
    have hblt : b < (l.length : Int) := Int.emod_lt_of_pos _ hmpos
    have hsum : (a + b) % (l.length : Int) = 0 := by
      rw [ha, hb, ← Int.add_emod]
      simp
    obtain ⟨k, hk⟩ := Int.dvd_of_emod_eq_zero hsum
    have hk01 : k = 0 ∨ k = 1 := by
      by_contra hcon
      push_neg at hcon
      obtain ⟨hk0, hk1⟩ := hcon
      rcases lt_or_gt_of_ne hk0 with hlt | hgt
      · have hle : k ≤ -1 := by omega
        have hmul : (l.length : Int) * k ≤ (l.length : Int) * (-1) :=
          mul_le_mul_of_nonneg_left hle (le_of_lt hmpos)
        rw [mul_neg_one] at hmul
        omega
      · have hge2 : (2 : Int) ≤ k := by omega
        have hmul : (l.length : Int) * 2 ≤ (l.length : Int) * k :=
          mul_le_mul_of_nonneg_left hge2 (le_of_lt hmpos)
        omega
    have hab : a + b = 0 ∨ a + b = (l.length : Int) := by
      rcases hk01 with h | h
      · rw [h, mul_zero] at hk
        exact Or.inl hk
      · rw [h, mul_one] at hk
        exact Or.inr hk
    have htn : a.toNat + b.toNat = 0 ∨ a.toNat + b.toNat = l.length := by omega
    rcases htn with h | h
    · rw [h, List.rotate_zero]
    · rw [h, List.rotate_length]

theorem dequeRotate_iterate_length (d : Int) (n : Nat) (l : List DString) :
    ((dequeRotate d)^[n] l).length = l.length := by
  induction n generalizing l with
  | zero => rfl
  | succ n ih => rw [Function.iterate_succ_apply, ih, dequeRotate_length]

theorem dequeRotate_inv_iterate (d : Int) (n : Nat) (l : List DString) :
    (dequeRotate (-d))^[n] ((dequeRotate d)^[n] l) = l := by
  induction n generalizing l with
  | zero => rfl
  | succ n ih =>
    rw [Function.iterate_succ_apply' (dequeRotate (-d)),
      Function.iterate_succ_apply (dequeRotate d), ih (dequeRotate d l),
      dequeRotate_inv]

theorem dequeRotate_ne_nil (d : Int) (l : List DString) (h : l ≠ []) :
    dequeRotate d l ≠ [] := by
  intro hc
  apply h
  have hl := dequeRotate_length d l
  rw [hc] at hl
  exact List.length_eq_zero.mp hl.symm

theorem exceptBind_ok {α β : Type} (a : α) (f : α → Except Err β) :
    Except.bind (Except.ok a) f = f a := rfl

theorem switchSelection_eq (dir : Int) (st : XState) (h : st.available ≠ []) :
    switchSelection dir st =
      Except.ok { st with available := dequeRotate dir st.available,
                          displayed := (dequeRotate dir st.available).head? } := by
  unfold switchSelection
  cases hh : (dequeRotate dir st.available).head? with
  | none =>
    rw [List.head?_eq_none_iff] at hh
    exact absurd hh (dequeRotate_ne_nil dir st.available h)
  | some x => simp [hh]

theorem switchN_eq (dir : Int) (n : Nat) (st : XState) (h : st.available ≠ []) :
    switchN dir n st =
      Except.ok { st with available := (dequeRotate dir)^[n] st.available,
                          displayed := if n = 0 then st.displayed
                            else ((dequeRotate dir)^[n] st.available).head? } := by
  induction n generalizing st with
  | zero => rfl
  | succ n ih =>
    show Except.bind (switchSelection dir st) (switchN dir n) = _
    rw [switchSelection_eq dir st h, exceptBind_ok]
    rw [ih _ (dequeRotate_ne_nil dir st.available h)]
    cases n with
    | zero => simp
    | succ m => simp [Function.iterate_succ_apply]

/-- C6 (amended).  For every state with a non-empty available ring, every
rotation direction `d` (the module only uses `±1`) and every `N ≥ 1`,
performing `N` rotations in direction `d` followed by `N` rotations in
direction `-d` restores the ring to its original rotation and sets
`displayed` to the original ring head; in particular `displayed` returns to
its original value whenever the starting `displayed` was the ring head (which
is the case after any previous rotation or successful reconcile). -/
theorem c6_rotation_round_trip (st : XState) (d : Int) (n : Nat)
    (hne : st.available ≠ []) (hn : 1 ≤ n) :
    Except.bind (switchN d n st) (switchN (-d) n) =
      Except.ok { st with displayed := st.available.head? } ∧
    (st.displayed = st.available.head? →
      Except.bind (switchN d n st) (switchN (-d) n) = Except.ok st) := by
  have h1 : switchN d n st =
      Except.ok { st with available := (dequeRotate d)^[n] st.available,
                          displayed := if n = 0 then st.displayed
                            else ((dequeRotate d)^[n] st.available).head? } :=
    switchN_eq d n st hne
  have h2 : ((dequeRotate d)^[n] st.available) ≠ [] := by
    intro hc
    apply hne
    have hl := dequeRotate_iterate_length d n st.available
    rw [hc] at hl
    exact List.length_eq_zero.mp hl.symm
  have hmain : Except.bind (switchN d n st) (switchN (-d) n) =
      Except.ok { st with displayed := st.available.head? } := by
    rw [h1]
    show switchN (-d) n _ = _
    rw [switchN_eq (-d) n _ h2]
    have hinv : (dequeRotate (-d))^[n] ((dequeRotate d)^[n] st.available) =
        st.available := dequeRotate_inv_iterate d n st.available
    cases n with
    | zero => omega
    | succ m =>
      simp only [hinv]
      simp
  refine ⟨hmain, fun hd => ?_⟩
  rw [hmain, ← hd]

/-- The ring state used to refute the literal reading of C6: `displayed` does
not equal the ring head. -/
def stRotCx : XState :=
  { initState defaultCfg with available := [['a'], ['b']], displayed := some ['b'] }

/-- C6, counterexample.  From a selection state whose `displayed` (`"b"`) is
not the ring head, one forward rotation followed by one backward rotation
ends with `displayed = "a"`: `displayed` does not return to its original
value, because every rotation snaps `displayed` to the new ring head. -/
theorem c6_counterexample :
    Except.bind (switchN 1 1 stRotCx) (switchN (-1) 1) =
      Except.ok { stRotCx with displayed := some ['a'] } ∧
    stRotCx.displayed ≠ some ['a'] := by
  exact ⟨rfl, by decide⟩

/-- Witness for C6: with `displayed` equal to the ring head, two forward and
two backward rotations restore the exact starting state. -/
theorem c6_rotation_round_trip_witness :
    Except.bind
        (switchN 1 2 { initState defaultCfg with
          available := [['a'], ['b'], ['c']], displayed := some ['a'] })
        (switchN (-1) 2) =
      Except.ok { initState defaultCfg with
        available := [['a'], ['b'], ['c']], displayed := some ['a'] } := by
  exact (c6_rotation_round_trip _ 1 2 (by decide) (by decide)).2 rfl

/-! ### Claim C5: structure of the synthesized command -/

/-- The value of the `previous_output` tracker after processing `processed`,
starting from `init`: the last processed output that is in the combination,
or `init` if none was. -/
def chainPrev (combination : List OutputId) (init : Option OutputId)
    (processed : List OutputId) : Option OutputId :=
  match (processed.filter (fun o => decide (o ∈ combination))).getLast? with
  | some p => some p
  | none => init

/-- The most recently processed combination member strictly before position
`i` of the output list. -/
def lastMemberBefore (combination : List OutputId) (outputs : List OutputId)
    (i : Nat) : Option OutputId :=
  chainPrev combination none (outputs.take i)

/-- The directive C5 predicts for output `o` given the most recently processed
combination member: `--off` outside the combination; clone mode with a prior
member derives from that member; otherwise the relational or absolute
positional form according to the position hint (default `"0x0"`). -/
def expectedAction (cfg : Config) (mode : Option Mode) (combination : List OutputId)
    (prev : Option OutputId) (o : OutputId) : XAction :=
  if o ∈ combination then
    match mode, prev with
    | some Mode.clone, some p => XAction.sameAs p
    | _, _ =>
      if isRelationalPos ((cfg.posHint o).getD defaultPos) then
        XAction.rel ((cfg.posHint o).getD defaultPos)
      else XAction.abs ((cfg.posHint o).getD defaultPos)
  else XAction.off

theorem getLast?_cons_eq (a : α) (l : List α) :
    (a :: l).getLast? = some ((l.getLast?).getD a) := by
  induction l generalizing a with
  | nil => rfl
  | cons b t ih =>
    rw [List.getLast?_cons_cons, ih b]
    rfl

theorem chainPrev_nil (combination : List OutputId) (init : Option OutputId) :
    chainPrev combination init [] = init := rfl

theorem chainPrev_cons (combination : List OutputId) (init : Option OutputId)
    (o : OutputId) (l : List OutputId) :
    chainPrev combination init (o :: l) =
      chainPrev combination (if o ∈ combination then some o else init) l := by
  by_cases hm : o ∈ combination
  · unfold chainPrev
    rw [if_pos hm, List.filter_cons_of_pos (by simpa using hm), getLast?_cons_eq]
    cases hfl : ((l.filter (fun o => decide (o ∈ combination))).getLast?) with
    | none => simp [hfl]
    | some p => simp [hfl]
  · unfold chainPrev
    rw [if_neg hm, List.filter_cons_of_neg (by simpa using hm)]

theorem synthGo_map_output (cfg : Config) (combination : List OutputId)
    (mode : Option Mode) :
    ∀ (init : Option OutputId) (outputs : List OutputId),
      (synthGo cfg combination mode init outputs).map (fun b => b.output) = outputs := by
  intro init outputs
  induction outputs generalizing init with
  | nil => rfl
  | cons o rest ih =>
    by_cases hm : o ∈ combination
    · simp only [synthGo, if_pos hm, List.map_cons, ih]
    · simp only [synthGo, if_neg hm, List.map_cons, ih]

theorem synthGo_spec (cfg : Config) (combination : List OutputId) (mode : Option Mode) :
    ∀ (outputs : List OutputId) (init : Option OutputId) (i : Nat), i < outputs.length →
      (synthGo cfg combination mode init outputs)[i]? =
        some ⟨(outputs[i]?).getD [],
          expectedAction cfg mode combination
            (chainPrev combination init (outputs.take i)) ((outputs[i]?).getD [])⟩ := by
  intro outputs
  induction outputs with
  | nil =>
    intro init i hi
    simp at hi
  | cons o rest ih =>
    intro init i hi
    by_cases hm : o ∈ combination
    · cases i with
      | zero =>
        simp [synthGo, if_pos hm, expectedAction, blockAction, chainPrev_nil]
      | succ j =>
        simp only [synthGo, if_pos hm, List.getElem?_cons_succ, List.take_succ_cons,
          chainPrev_cons, if_pos hm]
        exact ih (some o) j (by simpa using Nat.lt_of_succ_lt_succ hi)
    · cases i with
      | zero =>
        simp [synthGo, if_neg hm, expectedAction, chainPrev_nil]
      | succ j =>
        simp only [synthGo, if_neg hm, List.getElem?_cons_succ, List.take_succ_cons,
          chainPrev_cons, if_neg hm]
        exact ih init j (by simpa using Nat.lt_of_succ_lt_succ hi)

/-- C5.  The synthesized command has exactly one directive block per output of
the full list — connected outputs then disconnected outputs, in detection
order — in that order; block `i` concerns output `i` and carries: `--off` if
the output is not in the applied combination; in clone mode, when a
combination member was already processed, derivation from the most recently
processed member; otherwise the relational positional form when the position
hint contains above/below/left-of/right-of and the absolute form otherwise
(hint defaulting to `"0x0"`). -/
theorem c5_command_synthesis (cfg : Config) (combination : List OutputId)
    (mode : Option Mode) (st : XState) :
    (applyCmdBlocks cfg combination mode st).map (fun b => b.output) =
      st.connectedIds ++ st.disconnectedIds ∧
    ∀ i, i < (st.connectedIds ++ st.disconnectedIds).length →
      (applyCmdBlocks cfg combination mode st)[i]? =
        some ⟨((st.connectedIds ++ st.disconnectedIds)[i]?).getD [],
          expectedAction cfg mode combination
            (lastMemberBefore combination (st.connectedIds ++ st.disconnectedIds) i)
            (((st.connectedIds ++ st.disconnectedIds)[i]?).getD [])⟩ := by
  exact ⟨synthGo_map_output cfg combination mode none _,
    fun i hi => synthGo_spec cfg combination mode _ none i hi⟩

/-- Witness for C5 on a concrete clone-mode layout `[A, C]` over the full
output list `[A, B, C, D]`: `A` gets the absolute default position, `B` is
turned off, `C` is derived from the most recent member `A`, `D` is off. -/
theorem c5_command_synthesis_witness :
    (applyCmdBlocks defaultCfg [['A'], ['C']] (some Mode.clone)
        { activeComb := none, activeLayout := none, activeMode := some Mode.extend,
          displayed := none, maxWidth := 0, forceOnStart := none,
          connectedIds := [['A'], ['B'], ['C']], disconnectedIds := [['D']],
          available := [], combinationsMap := [] })[2]? =
      some ⟨['C'], XAction.sameAs ['A']⟩ := by
  have h := (c5_command_synthesis defaultCfg [['A'], ['C']] (some Mode.clone)
      { activeComb := none, activeLayout := none, activeMode := some Mode.extend,
        displayed := none, maxWidth := 0, forceOnStart := none,
        connectedIds := [['A'], ['B'], ['C']], disconnectedIds := [['D']],
        available := [], combinationsMap := [] }).2 2 (by decide)
  rw [h]
  rfl

/-! ### Claim C8: the fallback check -/

theorem dequeRotate_perm (n : Int) (l : List DString) : (dequeRotate n l).Perm l := by
  unfold dequeRotate
  split
  · exact List.Perm.refl l
  · exact List.rotate_perm l _

theorem chooseLoop_spec (active : Option DString) :
    ∀ (fuel : Nat) (displayed d : Option DString) (ring ring' : List DString)
      (broke : Bool),
      chooseLoop active displayed ring fuel = (d, ring', broke) →
      ring'.Perm ring ∧ (broke = true → ring'.head? = d) ∧
        (broke = false → d = displayed) := by
  intro fuel
  induction fuel with
  | zero =>
    intro displayed d ring ring' broke heq
    rw [chooseLoop] at heq
    injection heq with h1 h2
    injection h2 with h2 h3
    subst h1
    subst h2
    subst h3
    exact ⟨List.Perm.refl _, fun hf => Bool.noConfusion hf, fun _ => rfl⟩
  | succ fuel ih =>
    intro displayed d ring ring' broke heq
    cases ring with
    | nil =>
      rw [chooseLoop] at heq
      injection heq with h1 h2
      injection h2 with h2 h3
      subst h1
      subst h2
      subst h3
      exact ⟨List.Perm.refl _, fun hf => Bool.noConfusion hf, fun _ => rfl⟩
    | cons h t =>
      rw [chooseLoop] at heq
      by_cases h1 : displayed = none ∧ some h = active
      · rw [if_pos h1] at heq
        injection heq with ha hb
        injection hb with hb hc
        subst ha
        subst hb
        subst hc
        exact ⟨List.Perm.refl _, fun _ => rfl, fun hf => Bool.noConfusion hf⟩
      · rw [if_neg h1] at heq
        by_cases h2 : displayed = some h
        · rw [if_pos h2] at heq
          injection heq with ha hb
          injection hb with hb hc
          subst ha
          subst hb
          subst hc
          exact ⟨List.Perm.refl _, fun _ => h2.symm, fun hf => Bool.noConfusion hf⟩
        · rw [if_neg h2] at heq
          obtain ⟨hp, hb1, hb2⟩ := ih displayed d (dequeRotate 1 (h :: t)) ring' broke heq
          exact ⟨hp.trans (dequeRotate_perm 1 (h :: t)), hb1, hb2⟩

/-- Effect of `_choose_what_to_display(force_refresh=True)` on a non-empty
ring: it succeeds, leaves every field but `displayed`/`available` untouched,
permutes (rotates) the ring, and establishes `displayed = ring head`. -/
theorem chooseForce_spec (st : XState) (h : st.available ≠ []) :
    ∃ st', chooseWhatToDisplay true st = Except.ok st' ∧
      st'.displayed = st'.available.head? ∧ st'.available.Perm st.available ∧
      st'.activeComb = st.activeComb ∧ st'.activeLayout = st.activeLayout ∧
      st'.activeMode = st.activeMode ∧ st'.maxWidth = st.maxWidth ∧
      st'.forceOnStart = st.forceOnStart ∧ st'.connectedIds = st.connectedIds ∧
      st'.disconnectedIds = st.disconnectedIds ∧
      st'.combinationsMap = st.combinationsMap := by
  rcases heq : chooseLoop st.activeLayout st.displayed st.available st.available.length
    with ⟨d, ring, broke⟩
  obtain ⟨hperm, hbt, hbf⟩ := chooseLoop_spec st.activeLayout _ _ _ _ _ _ heq
  cases broke with
  | true =>
    refine ⟨{ st with displayed := d, available := ring }, ?_, ?_, hperm,
      rfl, rfl, rfl, rfl, rfl, rfl, rfl, rfl⟩
    · unfold chooseWhatToDisplay
      rw [heq]
    · exact (hbt rfl).symm
  | false =>
    have hring : ring ≠ [] := by
      intro hc
      subst hc
      exact h hperm.symm.eq_nil
    cases hh : ring.head? with
    | none =>
      rw [List.head?_eq_none_iff] at hh
      exact absurd hh hring
    | some hd0 =>
      refine ⟨{ st with displayed := some hd0, available := ring }, ?_, ?_, hperm,
        rfl, rfl, rfl, rfl, rfl, rfl, rfl, rfl⟩
      · unfold chooseWhatToDisplay
        rw [heq]
        simp [hh]
      · exact hh.symm

/-- `_apply` never touches `displayed`, the ring, the width, the one-shot
configuration, the recorded topology or the combination map. -/
theorem applyFn_preserves_selection (cfg : Config) (code : Int) (force : Bool)
    (st : XState) :
    (applyFn cfg code force st).1.displayed = st.displayed ∧
    (applyFn cfg code force st).1.available = st.available ∧
    (applyFn cfg code force st).1.combinationsMap = st.combinationsMap ∧
    (applyFn cfg code force st).1.connectedIds = st.connectedIds ∧
    (applyFn cfg code force st).1.disconnectedIds = st.disconnectedIds := by
  unfold applyFn
  split
  · exact ⟨rfl, rfl, rfl, rfl, rfl⟩
  · split
    · exact ⟨rfl, rfl, rfl, rfl, rfl⟩
    · split
      · exact ⟨rfl, rfl, rfl, rfl, rfl⟩
      · dsimp only
        split
        · exact ⟨rfl, rfl, rfl, rfl, rfl⟩
        · exact ⟨rfl, rfl, rfl, rfl, rfl⟩

/-- A non-forced `_apply` whose guards all pass issues the synthesized layout
command followed by the workspace actions, advancing the state only on exit
status 0. -/
theorem applyFn_issues (cfg : Config) (code : Int) (st : XState) (d : DString)
    (cm : List OutputId × Option Mode)
    (hd : st.displayed = some d)
    (hne : st.displayed ≠ st.activeLayout)
    (hlook : lookupMap st.combinationsMap d = some cm) :
    applyFn cfg code false st =
      ((if code = 0 then
          { st with activeComb := some cm.1, activeLayout := some d, activeMode := cm.2 }
        else st),
        ExtCall.xrandrApply (applyCmdBlocks cfg cm.1 cm.2 st) ::
          applyWorkspaces cfg cm.1 cm.2) := by
  unfold applyFn
  rw [if_neg (fun hc => hne hc.1), hd]
  simp only [hlook]

theorem fallbackGuardStep_mem (cfg : Config) (code : Int) (st : XState)
    (hopt : optMem st.activeLayout st.available = true) :
    fallbackGuardStep cfg code st = Except.ok (st, none, false, []) := by
  unfold fallbackGuardStep
  rw [hopt]
  rfl

theorem fallbackGuardStep_nofb (cfg : Config) (code : Int) (st : XState)
    (hopt : optMem st.activeLayout st.available = false)
    (hfb : cfg.fallback = false) :
    fallbackGuardStep cfg code st = Except.ok (st, some Color.degraded, false, []) := by
  unfold fallbackGuardStep
  rw [hopt, hfb]
  rfl

theorem fallbackGuardStep_fb (cfg : Config) (code : Int) (st : XState)
    (hopt : optMem st.activeLayout st.available = false)
    (hfb : cfg.fallback = true) :
    fallbackGuardStep cfg code st =
      Except.bind (fallbackToAvailableOutput cfg code st) (fun r =>
        Except.ok (r.1, some Color.degraded, r.2.1, r.2.2)) := by
  unfold fallbackGuardStep
  rw [hopt, hfb]
  rfl

theorem fallbackToAvailableOutput_one (cfg : Config) (code : Int) (st : XState)
    (ac : List OutputId) (hac : st.activeComb = some ac) (hlen : ac.length = 1) :
    fallbackToAvailableOutput cfg code st =
      Except.bind (chooseWhatToDisplay true st) (fun st1 =>
        Except.ok ((applyFn cfg code false st1).1, true,
          (applyFn cfg code false st1).2 ++ [ExtCall.refresh])) := by
  unfold fallbackToAvailableOutput
  simp only [hac]
  rw [if_pos hlen]

theorem fallbackToAvailableOutput_many (cfg : Config) (code : Int) (st : XState)
    (ac : List OutputId) (hac : st.activeComb = some ac) (hlen : ac.length ≠ 1) :
    fallbackToAvailableOutput cfg code st = Except.ok (st, false, []) := by
  unfold fallbackToAvailableOutput
  simp only [hac]
  rw [if_neg hlen]

/-- C8.  The fallback check never fires when the active layout is present in
the available set (the step is then a complete no-op); whenever it fires, the
active layout was absent from the available set, the fallback parameter was
enabled and the active combination had exactly one output; and under those
conditions (with a non-empty available ring whose strings are all in the
combination map, as `_set_available_combinations` guarantees) it does fire:
it force-selects the ring head as `displayed`, issues the synthesized apply
command, and signals a refresh. -/
theorem c8_fallback_check (cfg : Config) (code : Int) (st : XState)
    (ac : List OutputId) (hac : st.activeComb = some ac) :
    (optMem st.activeLayout st.available = true →
      fallbackGuardStep cfg code st = Except.ok (st, none, false, [])) ∧
    (∀ st' c fired calls,
      fallbackGuardStep cfg code st = Except.ok (st', c, fired, calls) →
      fired = true →
      optMem st.activeLayout st.available = false ∧ cfg.fallback = true ∧
        ac.length = 1) ∧
    (optMem st.activeLayout st.available = false → cfg.fallback = true →
      ac.length = 1 → st.available ≠ [] →
      (∀ s ∈ st.available, (lookupMap st.combinationsMap s).isSome = true) →
      ∃ st' blocks ws,
        fallbackGuardStep cfg code st =
          Except.ok (st', some Color.degraded, true,
            ExtCall.xrandrApply blocks :: (ws ++ [ExtCall.refresh])) ∧
        st'.displayed = st'.available.head?) := by
  refine ⟨fun hopt => fallbackGuardStep_mem cfg code st hopt,
    fun st' c fired calls heq hf => ?_, fun hopt hfb hlen hav hmap => ?_⟩
  · by_cases hopt : optMem st.activeLayout st.available = true
    · rw [fallbackGuardStep_mem cfg code st hopt] at heq
      injection heq with heq
      injection heq with h1 heq
      injection heq with h2 heq
      injection heq with h3 h4
      rw [← h3] at hf
      exact Bool.noConfusion hf
    · have hopt' : optMem st.activeLayout st.available = false := by
        simpa using hopt
      cases hfb : cfg.fallback with
      | false =>
        rw [fallbackGuardStep_nofb cfg code st hopt' hfb] at heq
        injection heq with heq
        injection heq with h1 heq
        injection heq with h2 heq
        injection heq with h3 h4
        rw [← h3] at hf
        exact Bool.noConfusion hf
      | true =>
        by_cases hlen : ac.length = 1
        · exact ⟨hopt', rfl, hlen⟩
        · rw [fallbackGuardStep_fb cfg code st hopt' hfb,
            fallbackToAvailableOutput_many cfg code st ac hac hlen,
            exceptBind_ok] at heq
          injection heq with heq
          injection heq with h1 heq
          injection heq with h2 heq
          injection heq with h3 h4
          rw [← h3] at hf
          exact Bool.noConfusion hf
  · obtain ⟨st1, hch, hdisp, hperm, hfc, hfl, hfm, hfw, hff, hfcon, hfdis, hfmap⟩ :=
      chooseForce_spec st hav
    have hav1 : st1.available ≠ [] := by
      intro hc
      rw [hc] at hperm
      exact hav hperm.symm.eq_nil
    cases hh : st1.available.head? with
    | none =>
      rw [List.head?_eq_none_iff] at hh
      exact absurd hh hav1
    | some d0 =>
      have hd1 : st1.displayed = some d0 := hdisp.trans hh
      have hmem1 : d0 ∈ st1.available := List.mem_of_mem_head? (Option.mem_def.mpr hh)
      have hmem0 : d0 ∈ st.available := hperm.subset hmem1
      have hne : st1.displayed ≠ st1.activeLayout := by
        rw [hd1, hfl]
        intro hc
        have hopt2 : optMem st.activeLayout st.available = true := by
          rw [← hc]
          simp [optMem, hmem0]
        rw [hopt2] at hopt
        exact Bool.noConfusion hopt
      obtain ⟨cm, hcm⟩ := Option.isSome_iff_exists.mp (hmap d0 hmem0)
      have hlook1 : lookupMap st1.combinationsMap d0 = some cm := by
        rw [hfmap]
        exact hcm
      have happ := applyFn_issues cfg code st1 d0 cm hd1 hne hlook1
      have hps := applyFn_preserves_selection cfg code false st1
      refine ⟨(applyFn cfg code false st1).1, applyCmdBlocks cfg cm.1 cm.2 st1,
        applyWorkspaces cfg cm.1 cm.2, ?_, ?_⟩
      · rw [fallbackGuardStep_fb cfg code st hopt hfb,
          fallbackToAvailableOutput_one cfg code st ac hac hlen, hch,
          exceptBind_ok, exceptBind_ok, happ]
        rfl
      · rw [hps.1, hps.2.1, hdisp]

/-- Witness for C8: a drifted single-output active layout (`"g"`, absent from
the available ring `["a"]`) makes the fallback fire, apply the ring head and
signal a refresh. -/
theorem c8_fallback_check_witness :
    ∃ st' blocks ws,
      fallbackGuardStep defaultCfg 0
          { activeComb := some [['e']], activeLayout := some ['g'],
            activeMode := some Mode.extend, displayed := some ['g'], maxWidth := 1,
            forceOnStart := none, connectedIds := [['a']], disconnectedIds := [],
            available := [['a']],
            combinationsMap := [(['a'], ([['a']], none))] } =
        Except.ok (st', some Color.degraded, true,
          ExtCall.xrandrApply blocks :: (ws ++ [ExtCall.refresh])) ∧
      st'.displayed = st'.available.head? :=
  (c8_fallback_check defaultCfg 0
      { activeComb := some [['e']], activeLayout := some ['g'],
        activeMode := some Mode.extend, displayed := some ['g'], maxWidth := 1,
        forceOnStart := none, connectedIds := [['a']], disconnectedIds := [],
        available := [['a']],
        combinationsMap := [(['a'], ([['a']], none))] }
      [['e']] rfl).2.2 (by decide) rfl (by decide) (by decide) (by decide)

/-! ### Claim C1: the combination generator

String-level lemmas about `pyJoin`/`rstrip`/`getString`, leading to the
cardinality and uniqueness statement for the available set. -/

theorem rstrip_eq_self (chars s : List Char)
    (h : ∀ a, s.getLast? = some a → chars.contains a = false) :
    rstrip chars s = s := by
  unfold rstrip
  cases hrev : s.reverse with
  | nil =>
    rw [List.reverse_eq_nil_iff] at hrev
    subst hrev
    rfl
  | cons b t =>
    have hb : s.getLast? = some b := by
      rw [← List.head?_reverse, hrev]
      rfl
    rw [List.dropWhile_cons, h b hb]
    rw [if_neg (by simp)]
    rw [← hrev, List.reverse_reverse]

theorem pyJoin_getLast? (sep : List Char) :
    ∀ (xs : List (List Char)) (y : List Char), xs.getLast? = some y → y ≠ [] →
      (pyJoin sep xs).getLast? = y.getLast? := by
  intro xs
  induction xs with
  | nil =>
    intro y hy _
    simp at hy
  | cons x rest ih =>
    intro y hy hyne
    cases rest with
    | nil =>
      rw [List.getLast?_singleton] at hy
      injection hy with hy
      subst hy
      rfl
    | cons z rest' =>
      have hy' : (z :: rest').getLast? = some y := by
        rw [List.getLast?_cons_cons] at hy
        exact hy
      have hP := ih y hy' hyne
      have hPne : pyJoin sep (z :: rest') ≠ [] := by
        intro hc
        rw [hc] at hP
        have h0 : y.getLast? = none := hP.symm
        rw [List.getLast?_eq_none_iff] at h0
        exact hyne h0
      show (pyJoin sep (x :: z :: rest')).getLast? = y.getLast?
      rw [pyJoin, List.append_assoc,
        List.getLast?_append_of_ne_nil _ (by
          intro hc
          exact hPne (List.append_eq_nil.mp hc).2),
        List.getLast?_append_of_ne_nil _ hPne, hP]

/-- The separator occurs in the joined string of any list with two or more
components. -/
theorem sep_mem_pyJoin (c : Char) (x z : List Char) (rest : List (List Char)) :
    c ∈ pyJoin [c] (x :: z :: rest) := by
  rw [pyJoin]
  simp

/-- A character that is in no component and differs from the separator does
not occur in the joined string. -/
theorem not_mem_pyJoin (c c' : Char) (hcc : c' ≠ c) :
    ∀ (xs : List (List Char)), (∀ x ∈ xs, c' ∉ x) → c' ∉ pyJoin [c] xs := by
  intro xs
  induction xs with
  | nil =>
    intro _
    simp [pyJoin]
  | cons x rest ih =>
    intro hfree
    cases rest with
    | nil =>
      simpa [pyJoin] using hfree x (List.mem_cons_self x [])
    | cons z rest' =>
      rw [pyJoin]
      simp only [List.mem_append, List.mem_singleton]
      push_neg
      refine ⟨⟨hfree x (List.mem_cons_self x _), hcc⟩, ?_⟩
      exact ih (fun w hw => hfree w (List.mem_cons_of_mem x hw))

theorem append_sep_inj (c : Char) :
    ∀ (a u b v : List Char), c ∉ a → c ∉ b → a ++ c :: u = b ++ c :: v →
      a = b ∧ u = v := by
  intro a
  induction a with
  | nil =>
    intro u b v _ hb heq
    cases b with
    | nil =>
      rw [List.nil_append, List.nil_append] at heq
      injection heq with _ h2
      exact ⟨rfl, h2⟩
    | cons bh bt =>
      rw [List.nil_append, List.cons_append] at heq
      injection heq with h1 _
      subst h1
      exact absurd (List.mem_cons_self c bt) hb
  | cons ah at0 ih =>
    intro u b v ha hb heq
    cases b with
    | nil =>
      rw [List.cons_append, List.nil_append] at heq
      injection heq with h1 _
      rw [← h1] at ha
      exact absurd (List.mem_cons_self ah at0) ha
    | cons bh bt =>
      rw [List.cons_append, List.cons_append] at heq
      injection heq with h1 h2
      subst h1
      obtain ⟨he, hu⟩ := ih u bt v (fun hm => ha (List.mem_cons_of_mem _ hm))
        (fun hm => hb (List.mem_cons_of_mem _ hm)) h2
      exact ⟨by rw [he], hu⟩

theorem pyJoin_inj (c : Char) :
    ∀ (xs ys : List (List Char)), (∀ x ∈ xs, c ∉ x) → (∀ y ∈ ys, c ∉ y) →
      xs ≠ [] → ys ≠ [] → pyJoin [c] xs = pyJoin [c] ys → xs = ys := by
  intro xs
  induction xs with
  | nil =>
    intro ys _ _ hne
    exact absurd rfl hne
  | cons x xs' ih =>
    intro ys hxs hys _ hyne heq
    cases ys with
    | nil => exact absurd rfl hyne
    | cons y ys' =>
      cases xs' with
      | nil =>
        cases ys' with
        | nil =>
          have hx : pyJoin [c] [x] = x := rfl
          have hy : pyJoin [c] [y] = y := rfl
          rw [hx, hy] at heq
          rw [heq]
        | cons y2 yt =>
          exfalso
          have hc : c ∈ pyJoin [c] (y :: y2 :: yt) := sep_mem_pyJoin c y y2 yt
          rw [← heq] at hc
          exact hxs x (List.mem_cons_self x []) hc
      | cons x2 xt =>
        cases ys' with
        | nil =>
          exfalso
          have hc : c ∈ pyJoin [c] (x :: x2 :: xt) := sep_mem_pyJoin c x x2 xt
          rw [heq] at hc
          exact hys y (List.mem_cons_self y []) hc
        | cons y2 yt =>
          rw [pyJoin, pyJoin, List.append_assoc, List.append_assoc,
            List.singleton_append, List.singleton_append] at heq
          obtain ⟨hxy, hPQ⟩ := append_sep_inj c x (pyJoin [c] (x2 :: xt)) y
            (pyJoin [c] (y2 :: yt)) (hxs x (List.mem_cons_self x _))
            (hys y (List.mem_cons_self y _)) heq
          have htail := ih (y2 :: yt)
            (fun w hw => hxs w (List.mem_cons_of_mem x hw))
            (fun w hw => hys w (List.mem_cons_of_mem y hw))
            (by simp) (by simp) hPQ
          rw [hxy, htail]

theorem getString_eq_pyJoin (c : Char) (comb : List (List Char))
    (hne : ∀ x ∈ comb, x ≠ []) (hfree : ∀ x ∈ comb, c ∉ x) :
    getString [c] comb = pyJoin [c] comb := by
  unfold getString
  apply rstrip_eq_self
  intro a ha
  cases hcomb : comb.getLast? with
  | none =>
    rw [List.getLast?_eq_none_iff] at hcomb
    subst hcomb
    simp [pyJoin] at ha
  | some y =>
    have hymem : y ∈ comb := by
      obtain ⟨hh, hyv⟩ := List.mem_getLast?_eq_getLast (Option.mem_def.mpr hcomb)
      rw [hyv]
      exact List.getLast_mem hh
    have hP := pyJoin_getLast? [c] comb y hcomb (hne y hymem)
    rw [hP] at ha
    have hamem : a ∈ y := by
      obtain ⟨hh, hav⟩ := List.mem_getLast?_eq_getLast (Option.mem_def.mpr ha)
      rw [hav]
      exact List.getLast_mem hh
    have hac : a ≠ c := fun hcc => hfree y hymem (hcc ▸ hamem)
    simp [hac]

theorem getString_singleton (c : Char) (a : List Char) (hne : a ≠ [])
    (hfree : c ∉ a) :
    getString [c] [a] = a := by
  rw [getString_eq_pyJoin c [a] (by simpa using hne) (by simpa using hfree)]
  rfl

/-- The loop domain of `_set_available_combinations` enumerates exactly the
subsequences of the connected-output list. -/
theorem mem_combsAll (connected : List OutputId) (comb : List OutputId) :
    comb ∈ (List.range (connected.length + 1)).flatMap
        (fun r => List.sublistsLen r connected) ↔
      comb.Sublist connected := by
  simp only [List.mem_flatMap, List.mem_range, List.mem_sublistsLen]
  constructor
  · rintro ⟨r, _, hsub, _⟩
    exact hsub
  · intro hsub
    exact ⟨comb.length, Nat.lt_succ_of_le hsub.length_le, hsub, rfl⟩

/-- Membership characterization of the generated (string, value) entries. -/
theorem mem_generateEntries (cfg : Config) (connected : List OutputId)
    (e : DString × (List OutputId × Option Mode)) :
    e ∈ generateEntries cfg connected ↔
      ∃ comb, comb.Sublist connected ∧ comb ≠ [] ∧
        (e = (getString cfg.formatClone comb,
              (comb, if comb.length = 1 then none else some Mode.clone)) ∨
         e = (getString cfg.formatExtend comb,
              (comb, if comb.length = 1 then none else some Mode.extend))) := by
  unfold generateEntries
  simp only [List.mem_flatMap]
  constructor
  · rintro ⟨comb, hsubRaw, hin⟩
    have hsub : comb.Sublist connected :=
      (mem_combsAll connected comb).mp (List.mem_flatMap.mpr hsubRaw)
    by_cases hemp : comb.isEmpty
    · rw [if_pos hemp] at hin
      simp at hin
    · rw [if_neg hemp] at hin
      refine ⟨comb, hsub, by simpa [List.isEmpty_iff] using hemp, ?_⟩
      simp only [List.map_cons, List.map_nil, List.mem_cons, List.mem_singleton,
        List.not_mem_nil, or_false] at hin
      rcases hin with h | h
      · exact Or.inl (by rw [h]; rfl)
      · exact Or.inr (by rw [h]; rfl)
  · rintro ⟨comb, hsub, hne, hor⟩
    refine ⟨comb, List.mem_flatMap.mp ((mem_combsAll connected comb).mpr hsub), ?_⟩
    rw [if_neg (by simpa [List.isEmpty_iff] using hne)]
    simp only [List.map_cons, List.map_nil, List.mem_cons, List.mem_singleton,
      List.not_mem_nil, or_false]
    rcases hor with h | h
    · exact Or.inl (by rw [h]; rfl)
    · exact Or.inr (by rw [h]; rfl)

/-- Membership characterization of the generated display strings. -/
theorem mem_generatedStrings (cfg : Config) (connected : List OutputId)
    (s : DString) :
    s ∈ (generateEntries cfg connected).map (fun e => e.1) ↔
      ∃ comb, comb.Sublist connected ∧ comb ≠ [] ∧
        (s = getString cfg.formatClone comb ∨ s = getString cfg.formatExtend comb) := by
  rw [List.mem_map]
  constructor
  · rintro ⟨e, he, hs⟩
    obtain ⟨comb, hsub, hne, hor⟩ := (mem_generateEntries cfg connected e).mp he
    refine ⟨comb, hsub, hne, ?_⟩
    rcases hor with h | h
    · exact Or.inl (by rw [← hs, h])
    · exact Or.inr (by rw [← hs, h])
  · rintro ⟨comb, hsub, hne, hor⟩
    rcases hor with h | h
    · exact ⟨(getString cfg.formatClone comb,
          (comb, if comb.length = 1 then none else some Mode.clone)),
        (mem_generateEntries cfg connected _).mpr ⟨comb, hsub, hne, Or.inl rfl⟩, h.symm⟩
    · exact ⟨(getString cfg.formatExtend comb,
          (comb, if comb.length = 1 then none else some Mode.extend)),
        (mem_generateEntries cfg connected _).mpr ⟨comb, hsub, hne, Or.inr rfl⟩, h.symm⟩

theorem lookup_eq_of_unique :
    ∀ (l : List (DString × (List OutputId × Option Mode))) (k : DString)
      (v : List OutputId × Option Mode),
      (∃ e ∈ l, e.1 = k) → (∀ e ∈ l, e.1 = k → e.2 = v) → l.lookup k = some v := by
  intro l
  induction l with
  | nil =>
    rintro k v ⟨e, he, _⟩ _
    simp at he
  | cons e t ih =>
    rintro k v hex huniq
    obtain ⟨k1, v1⟩ := e
    cases hbeq : k == k1 with
    | true =>
      have hk : k1 = k := (eq_of_beq hbeq).symm
      have hv : v1 = v := huniq (k1, v1) (List.mem_cons_self _ _) hk
      simp [List.lookup, hbeq, hv]
    | false =>
      have hk : k1 ≠ k := by
        intro hc
        rw [hc] at hbeq
        simp at hbeq
      have hex' : ∃ e ∈ t, e.1 = k := by
        obtain ⟨e', he', hke⟩ := hex
        rcases List.mem_cons.mp he' with h | h
        · rw [h] at hke
          exact absurd hke hk
        · exact ⟨e', h, hke⟩
      have huniq' : ∀ e ∈ t, e.1 = k → e.2 = v :=
        fun e' he' hke => huniq e' (List.mem_cons_of_mem _ he') hke
      simp [List.lookup, hbeq]
      exact ih k v hex' huniq'

theorem lookupMap_eq_of_unique (m : List (DString × (List OutputId × Option Mode)))
    (k : DString) (v : List OutputId × Option Mode)
    (hex : ∃ e ∈ m, e.1 = k) (huniq : ∀ e ∈ m, e.1 = k → e.2 = v) :
    lookupMap m k = some v := by
  unfold lookupMap
  apply lookup_eq_of_unique
  · obtain ⟨e, he, hk⟩ := hex
    exact ⟨e, List.mem_reverse.mpr he, hk⟩
  · intro e he hk
    exact huniq e (List.mem_reverse.mp he) hk

theorem sublists_toFinset_card (connected : List OutputId) (hnd : connected.Nodup) :
    connected.sublists.toFinset.card = 2 ^ connected.length := by
  rw [List.toFinset_card_of_nodup (List.nodup_sublists.mpr hnd), List.length_sublists]

theorem card_filter_len0 (connected : List OutputId) :
    (connected.sublists.toFinset.filter (fun c => c.length = 0)).card = 1 := by
  have h : connected.sublists.toFinset.filter (fun c => c.length = 0) = {[]} := by
    apply Finset.ext
    intro comb
    simp only [Finset.mem_filter, List.mem_toFinset, List.mem_sublists,
      List.length_eq_zero, Finset.mem_singleton]
    constructor
    · rintro ⟨_, h⟩
      exact h
    · rintro rfl
      exact ⟨List.nil_sublist _, rfl⟩
  rw [h, Finset.card_singleton]

theorem filter_len1_eq (connected : List OutputId) :
    connected.sublists.toFinset.filter (fun c => c.length = 1) =
      connected.toFinset.image (fun a => [a]) := by
  apply Finset.ext
  intro comb
  simp only [Finset.mem_filter, List.mem_toFinset, List.mem_sublists,
    Finset.mem_image, List.length_eq_one]
  constructor
  · rintro ⟨hsub, a, rfl⟩
    exact ⟨a, List.singleton_sublist.mp hsub, rfl⟩
  · rintro ⟨a, hmem, rfl⟩
    exact ⟨List.singleton_sublist.mpr hmem, a, rfl⟩

theorem card_filter_len1 (connected : List OutputId) (hnd : connected.Nodup) :
    (connected.sublists.toFinset.filter (fun c => c.length = 1)).card =
      connected.length := by
  rw [filter_len1_eq,
    Finset.card_image_of_injective _ (fun a b h => by injection h),
    List.toFinset_card_of_nodup hnd]

theorem card_filter_len2 (connected : List OutputId) (hnd : connected.Nodup) :
    (connected.sublists.toFinset.filter (fun c => 2 ≤ c.length)).card =
      2 ^ connected.length - 1 - connected.length := by
  have htotal := sublists_toFinset_card connected hnd
  have hcompl : (connected.sublists.toFinset.filter
        (fun c : List OutputId => 2 ≤ c.length)).card +
      (connected.sublists.toFinset.filter
        (fun c : List OutputId => ¬ 2 ≤ c.length)).card =
      connected.sublists.toFinset.card :=
    Finset.filter_card_add_filter_neg_card_eq_card _
  have hsplit : connected.sublists.toFinset.filter
        (fun c : List OutputId => ¬ 2 ≤ c.length) =
      connected.sublists.toFinset.filter (fun c => c.length = 0) ∪
        connected.sublists.toFinset.filter (fun c => c.length = 1) := by
    apply Finset.ext
    intro comb
    simp only [Finset.mem_filter, Finset.mem_union]
    constructor
    · rintro ⟨hs, hlt⟩
      have h01 : comb.length = 0 ∨ comb.length = 1 := by omega
      rcases h01 with h | h
      · exact Or.inl ⟨hs, h⟩
      · exact Or.inr ⟨hs, h⟩
    · rintro (⟨hs, h⟩ | ⟨hs, h⟩)
      · exact ⟨hs, by omega⟩
      · exact ⟨hs, by omega⟩
  have hdisj : Disjoint
      (connected.sublists.toFinset.filter (fun c : List OutputId => c.length = 0))
      (connected.sublists.toFinset.filter (fun c : List OutputId => c.length = 1)) := by
    rw [Finset.disjoint_left]
    intro comb h0 h1
    rw [Finset.mem_filter] at h0 h1
    omega
  rw [hsplit, Finset.card_union_of_disjoint hdisj, card_filter_len0,
    card_filter_len1 connected hnd] at hcompl
  omega

theorem getString_injOn (c : Char) (connected : List OutputId)
    (hids : ∀ x ∈ connected, x ≠ [] ∧ c ∉ x) :
    ∀ comb1, comb1.Sublist connected → comb1 ≠ [] →
      ∀ comb2, comb2.Sublist connected → comb2 ≠ [] →
        getString [c] comb1 = getString [c] comb2 → comb1 = comb2 := by
  intro c1 h1 hne1 c2 h2 hne2 heq
  rw [getString_eq_pyJoin c c1 (fun x hx => (hids x (h1.subset hx)).1)
      (fun x hx => (hids x (h1.subset hx)).2),
    getString_eq_pyJoin c c2 (fun x hx => (hids x (h2.subset hx)).1)
      (fun x hx => (hids x (h2.subset hx)).2)] at heq
  exact pyJoin_inj c c1 c2 (fun x hx => (hids x (h1.subset hx)).2)
    (fun x hx => (hids x (h2.subset hx)).2) hne1 hne2 heq

theorem sep_mem_getString (c : Char) (comb : List OutputId)
    (hn : ∀ x ∈ comb, x ≠ []) (hf : ∀ x ∈ comb, c ∉ x) (hlen : 2 ≤ comb.length) :
    c ∈ getString [c] comb := by
  rw [getString_eq_pyJoin c comb hn hf]
  cases comb with
  | nil => simp at hlen
  | cons x t =>
    cases t with
    | nil => simp at hlen
    | cons z rest => exact sep_mem_pyJoin c x z rest

theorem not_mem_getString (c c' : Char) (hcc : c' ≠ c) (comb : List OutputId)
    (hn : ∀ x ∈ comb, x ≠ []) (hf : ∀ x ∈ comb, c ∉ x)
    (hf' : ∀ x ∈ comb, c' ∉ x) :
    c' ∉ getString [c] comb := by
  rw [getString_eq_pyJoin c comb hn hf]
  exact not_mem_pyJoin c c' hcc comb hf'

theorem length_one_or_two_le (comb : List OutputId) (hne : comb ≠ []) :
    comb.length = 1 ∨ 2 ≤ comb.length := by
  cases comb with
  | nil => exact absurd rfl hne
  | cons a t =>
    cases t with
    | nil => exact Or.inl rfl
    | cons b t' =>
      right
      simp only [List.length_cons]
      omega

/-- Decomposition of the generated display-string set into the clone strings
of the subsets of size at least two, their extend strings, and the identifier
strings of the singleton subsets. -/
theorem availableFinset_eq (connected : List OutputId)
    (hids : ∀ x ∈ connected, x ≠ [] ∧ '+' ∉ x ∧ '=' ∉ x) :
    ((generateEntries defaultCfg connected).map (fun e => e.1)).toFinset =
      ((connected.sublists.toFinset.filter (fun c => 2 ≤ c.length)).image
          (fun comb => getString ['='] comb)) ∪
        ((connected.sublists.toFinset.filter (fun c => 2 ≤ c.length)).image
          (fun comb => getString ['+'] comb)) ∪
        ((connected.sublists.toFinset.filter (fun c => c.length = 1)).image
          (fun comb => getString ['+'] comb)) := by
  apply Finset.ext
  intro s
  rw [List.mem_toFinset, mem_generatedStrings]
  simp only [Finset.mem_union, Finset.mem_image, Finset.mem_filter, List.mem_toFinset,
    List.mem_sublists, show defaultCfg.formatClone = ['='] from rfl,
    show defaultCfg.formatExtend = ['+'] from rfl]
  constructor
  · rintro ⟨comb, hsub, hne, hor⟩
    rcases length_one_or_two_le comb hne with h1 | h2
    · right
      obtain ⟨a, rfl⟩ := List.length_eq_one.mp h1
      obtain ⟨hane, hplus, heqc⟩ := hids a (List.singleton_sublist.mp hsub)
      have hcl : getString ['='] [a] = a := getString_singleton '=' a hane heqc
      have hex : getString ['+'] [a] = a := getString_singleton '+' a hane hplus
      refine ⟨[a], ⟨hsub, rfl⟩, ?_⟩
      rcases hor with h | h
      · rw [hex, h, hcl]
      · rw [hex, h, hex]
    · rcases hor with h | h
      · exact Or.inl (Or.inl ⟨comb, ⟨hsub, h2⟩, h.symm⟩)
      · exact Or.inl (Or.inr ⟨comb, ⟨hsub, h2⟩, h.symm⟩)
  · rintro ((⟨comb, ⟨hsub, hlen⟩, rfl⟩ | ⟨comb, ⟨hsub, hlen⟩, rfl⟩) |
      ⟨comb, ⟨hsub, hlen⟩, rfl⟩)
    · exact ⟨comb, hsub, by intro hc; rw [hc] at hlen; simp at hlen, Or.inl rfl⟩
    · exact ⟨comb, hsub, by intro hc; rw [hc] at hlen; simp at hlen, Or.inr rfl⟩
    · exact ⟨comb, hsub, by intro hc; rw [hc] at hlen; simp at hlen, Or.inr rfl⟩

theorem availableFinset_card (connected : List OutputId) (hnd : connected.Nodup)
    (hids : ∀ x ∈ connected, x ≠ [] ∧ '+' ∉ x ∧ '=' ∉ x) :
    ((generateEntries defaultCfg connected).map (fun e => e.1)).toFinset.card =
      2 * (2 ^ connected.length - 1 - connected.length) + connected.length := by
  have hn : ∀ comb : List OutputId, comb.Sublist connected → ∀ x ∈ comb, x ≠ [] :=
    fun comb hsub x hx => (hids x (hsub.subset hx)).1
  have hfp : ∀ comb : List OutputId, comb.Sublist connected → ∀ x ∈ comb, '+' ∉ x :=
    fun comb hsub x hx => (hids x (hsub.subset hx)).2.1
  have hfe : ∀ comb : List OutputId, comb.Sublist connected → ∀ x ∈ comb, '=' ∉ x :=
    fun comb hsub x hx => (hids x (hsub.subset hx)).2.2
  have hmem2 : ∀ comb ∈ connected.sublists.toFinset.filter
      (fun c : List OutputId => 2 ≤ c.length),
      comb.Sublist connected ∧ 2 ≤ comb.length := by
    intro comb hc
    rw [Finset.mem_filter, List.mem_toFinset, List.mem_sublists] at hc
    exact hc
  have hmem1 : ∀ comb ∈ connected.sublists.toFinset.filter
      (fun c : List OutputId => c.length = 1),
      comb.Sublist connected ∧ comb.length = 1 := by
    intro comb hc
    rw [Finset.mem_filter, List.mem_toFinset, List.mem_sublists] at hc
    exact hc
  have hA : ∀ s ∈ (connected.sublists.toFinset.filter
      (fun c : List OutputId => 2 ≤ c.length)).image (fun comb => getString ['='] comb),
      '=' ∈ s ∧ '+' ∉ s := by
    intro s hs
    obtain ⟨comb, hc, rfl⟩ := Finset.mem_image.mp hs
    obtain ⟨hsub, hlen⟩ := hmem2 comb hc
    exact ⟨sep_mem_getString '=' comb (hn comb hsub) (hfe comb hsub) hlen,
      not_mem_getString '=' '+' (by decide) comb (hn comb hsub) (hfe comb hsub)
        (hfp comb hsub)⟩
  have hB : ∀ s ∈ (connected.sublists.toFinset.filter
      (fun c : List OutputId => 2 ≤ c.length)).image (fun comb => getString ['+'] comb),
      '+' ∈ s ∧ '=' ∉ s := by
    intro s hs
    obtain ⟨comb, hc, rfl⟩ := Finset.mem_image.mp hs
    obtain ⟨hsub, hlen⟩ := hmem2 comb hc
    exact ⟨sep_mem_getString '+' comb (hn comb hsub) (hfp comb hsub) hlen,
      not_mem_getString '+' '=' (by decide) comb (hn comb hsub) (hfp comb hsub)
        (hfe comb hsub)⟩
  have hC : ∀ s ∈ (connected.sublists.toFinset.filter
      (fun c : List OutputId => c.length = 1)).image (fun comb => getString ['+'] comb),
      '+' ∉ s ∧ '=' ∉ s := by
    intro s hs
    obtain ⟨comb, hc, rfl⟩ := Finset.mem_image.mp hs
    obtain ⟨hsub, hlen⟩ := hmem1 comb hc
    obtain ⟨a, rfl⟩ := List.length_eq_one.mp hlen
    obtain ⟨hane, hplus, heqs⟩ := hids a (List.singleton_sublist.mp hsub)
    rw [getString_singleton '+' a hane hplus]
    exact ⟨hplus, heqs⟩
  have hd1 : Disjoint
      ((connected.sublists.toFinset.filter (fun c : List OutputId => 2 ≤ c.length)).image
        (fun comb => getString ['='] comb))
      ((connected.sublists.toFinset.filter (fun c : List OutputId => 2 ≤ c.length)).image
        (fun comb => getString ['+'] comb)) := by
    rw [Finset.disjoint_left]
    intro s hsA hsB
    exact (hB s hsB).2 (hA s hsA).1
  have hd2 : Disjoint
      (((connected.sublists.toFinset.filter (fun c : List OutputId => 2 ≤ c.length)).image
          (fun comb => getString ['='] comb)) ∪
        ((connected.sublists.toFinset.filter (fun c : List OutputId => 2 ≤ c.length)).image
          (fun comb => getString ['+'] comb)))
      ((connected.sublists.toFinset.filter (fun c : List OutputId => c.length = 1)).image
        (fun comb => getString ['+'] comb)) := by
    rw [Finset.disjoint_left]
    intro s hsAB hsC
    rcases Finset.mem_union.mp hsAB with h | h
    · exact (hC s hsC).2 (hA s h).1
    · exact (hC s hsC).1 (hB s h).1
  have hcard_cl : ((connected.sublists.toFinset.filter
      (fun c : List OutputId => 2 ≤ c.length)).image
        (fun comb => getString ['='] comb)).card =
      (connected.sublists.toFinset.filter (fun c : List OutputId => 2 ≤ c.length)).card := by
    apply Finset.card_image_of_injOn
    intro c1 h1 c2 h2 heq
    obtain ⟨hs1, hl1⟩ := hmem2 c1 h1
    obtain ⟨hs2, hl2⟩ := hmem2 c2 h2
    exact getString_injOn '=' connected (fun x hx => ⟨(hids x hx).1, (hids x hx).2.2⟩)
      c1 hs1 (by intro hc; rw [hc] at hl1; simp at hl1)
      c2 hs2 (by intro hc; rw [hc] at hl2; simp at hl2) heq
  have hcard_ex2 : ((connected.sublists.toFinset.filter
      (fun c : List OutputId => 2 ≤ c.length)).image
        (fun comb => getString ['+'] comb)).card =
      (connected.sublists.toFinset.filter (fun c : List OutputId => 2 ≤ c.length)).card := by
    apply Finset.card_image_of_injOn
    intro c1 h1 c2 h2 heq
    obtain ⟨hs1, hl1⟩ := hmem2 c1 h1
    obtain ⟨hs2, hl2⟩ := hmem2 c2 h2
    exact getString_injOn '+' connected (fun x hx => ⟨(hids x hx).1, (hids x hx).2.1⟩)
      c1 hs1 (by intro hc; rw [hc] at hl1; simp at hl1)
      c2 hs2 (by intro hc; rw [hc] at hl2; simp at hl2) heq
  have hcard_ex1 : ((connected.sublists.toFinset.filter
      (fun c : List OutputId => c.length = 1)).image
        (fun comb => getString ['+'] comb)).card =
      (connected.sublists.toFinset.filter (fun c : List OutputId => c.length = 1)).card := by
    apply Finset.card_image_of_injOn
    intro c1 h1 c2 h2 heq
    obtain ⟨hs1, hl1⟩ := hmem1 c1 h1
    obtain ⟨hs2, hl2⟩ := hmem1 c2 h2
    exact getString_injOn '+' connected (fun x hx => ⟨(hids x hx).1, (hids x hx).2.1⟩)
      c1 hs1 (by intro hc; rw [hc] at hl1; simp at hl1)
      c2 hs2 (by intro hc; rw [hc] at hl2; simp at hl2) heq
  rw [availableFinset_eq connected hids, Finset.card_union_of_disjoint hd2,
    Finset.card_union_of_disjoint hd1, hcard_cl, hcard_ex2, hcard_ex1,
    card_filter_len2 connected hnd, card_filter_len1 connected hnd]
  have hpow := Nat.lt_two_pow connected.length
  omega

theorem lookupMap_singleton (connected : List OutputId)
    (hids : ∀ x ∈ connected, x ≠ [] ∧ '+' ∉ x ∧ '=' ∉ x)
    (a : OutputId) (ha : a ∈ connected) :
    lookupMap (generateEntries defaultCfg connected) (getString ['+'] [a]) =
      some ([a], none) := by
  obtain ⟨hane, hplus, heqs⟩ := hids a ha
  have hsa : getString ['+'] [a] = a := getString_singleton '+' a hane hplus
  apply lookupMap_eq_of_unique
  · refine ⟨(getString defaultCfg.formatExtend [a],
      ([a], if ([a] : List OutputId).length = 1 then none else some Mode.extend)), ?_, ?_⟩
    · exact (mem_generateEntries defaultCfg connected _).mpr
        ⟨[a], List.singleton_sublist.mpr ha, by simp, Or.inr rfl⟩
    · rfl
  · intro e he hk
    obtain ⟨comb', hsub', hne', hor'⟩ := (mem_generateEntries defaultCfg connected e).mp he
    rw [show defaultCfg.formatClone = ['='] from rfl,
      show defaultCfg.formatExtend = ['+'] from rfl] at hor'
    rcases length_one_or_two_le comb' hne' with h1' | h2'
    · obtain ⟨b, rfl⟩ := List.length_eq_one.mp h1'
      obtain ⟨hbne, hbplus, hbeqs⟩ := hids b (List.singleton_sublist.mp hsub')
      have he1 : e.1 = b := by
        rcases hor' with h | h
        · rw [h]
          exact getString_singleton '=' b hbne hbeqs
        · rw [h]
          exact getString_singleton '+' b hbne hbplus
      have hb : b = a := by
        rw [he1, hsa] at hk
        exact hk
      subst hb
      rcases hor' with h | h
      · rw [h]
        simp
      · rw [h]
        simp
    · exfalso
      have hn' : ∀ x ∈ comb', x ≠ [] := fun x hx => (hids x (hsub'.subset hx)).1
      have hfp' : ∀ x ∈ comb', '+' ∉ x := fun x hx => (hids x (hsub'.subset hx)).2.1
      have hfe' : ∀ x ∈ comb', '=' ∉ x := fun x hx => (hids x (hsub'.subset hx)).2.2
      rcases hor' with h | h
      · have hm : '=' ∈ e.1 := by
          rw [h]
          exact sep_mem_getString '=' comb' hn' hfe' h2'
        rw [hk, hsa] at hm
        exact heqs hm
      · have hm : '+' ∈ e.1 := by
          rw [h]
          exact sep_mem_getString '+' comb' hn' hfp' h2'
        rw [hk, hsa] at hm
        exact hplus hm

theorem lookupMap_multi (connected : List OutputId)
    (hids : ∀ x ∈ connected, x ≠ [] ∧ '+' ∉ x ∧ '=' ∉ x)
    (comb : List OutputId) (hsub : comb.Sublist connected) (hlen : 2 ≤ comb.length) :
    lookupMap (generateEntries defaultCfg connected) (getString ['+'] comb) =
      some (comb, some Mode.extend) ∧
    lookupMap (generateEntries defaultCfg connected) (getString ['='] comb) =
      some (comb, some Mode.clone) := by
  have hn : ∀ x ∈ comb, x ≠ [] := fun x hx => (hids x (hsub.subset hx)).1
  have hfp : ∀ x ∈ comb, '+' ∉ x := fun x hx => (hids x (hsub.subset hx)).2.1
  have hfe : ∀ x ∈ comb, '=' ∉ x := fun x hx => (hids x (hsub.subset hx)).2.2
  have hnlen : comb.length ≠ 1 := by omega
  have hcne : comb ≠ [] := by
    intro hc
    rw [hc] at hlen
    simp at hlen
  have hplusKey : '+' ∈ getString ['+'] comb := sep_mem_getString '+' comb hn hfp hlen
  have hnoEqKey : '=' ∉ getString ['+'] comb :=
    not_mem_getString '+' '=' (by decide) comb hn hfp hfe
  have hEqKey : '=' ∈ getString ['='] comb := sep_mem_getString '=' comb hn hfe hlen
  have hnoPlusKey : '+' ∉ getString ['='] comb :=
    not_mem_getString '=' '+' (by decide) comb hn hfe hfp
  constructor
  · apply lookupMap_eq_of_unique
    · refine ⟨(getString defaultCfg.formatExtend comb,
        (comb, if comb.length = 1 then none else some Mode.extend)), ?_, rfl⟩
      exact (mem_generateEntries defaultCfg connected _).mpr
        ⟨comb, hsub, hcne, Or.inr rfl⟩
    · intro e he hk
      obtain ⟨comb', hsub', hne', hor'⟩ :=
        (mem_generateEntries defaultCfg connected e).mp he
      rw [show defaultCfg.formatClone = ['='] from rfl,
        show defaultCfg.formatExtend = ['+'] from rfl] at hor'
      have hn' : ∀ x ∈ comb', x ≠ [] := fun x hx => (hids x (hsub'.subset hx)).1
      have hfp' : ∀ x ∈ comb', '+' ∉ x := fun x hx => (hids x (hsub'.subset hx)).2.1
      have hfe' : ∀ x ∈ comb', '=' ∉ x := fun x hx => (hids x (hsub'.subset hx)).2.2
      rcases length_one_or_two_le comb' hne' with h1' | h2'
      · exfalso
        obtain ⟨b, rfl⟩ := List.length_eq_one.mp h1'
        obtain ⟨hbne, hbplus, hbeqs⟩ := hids b (List.singleton_sublist.mp hsub')
        have he1 : e.1 = b := by
          rcases hor' with h | h
          · rw [h]
            exact getString_singleton '=' b hbne hbeqs
          · rw [h]
            exact getString_singleton '+' b hbne hbplus
        rw [he1] at hk
        rw [hk] at hbplus
        exact hbplus hplusKey
      · rcases hor' with h | h
        · exfalso
          have hm : '=' ∈ e.1 := by
            rw [h]
            exact sep_mem_getString '=' comb' hn' hfe' h2'
          rw [hk] at hm
          exact hnoEqKey hm
        · have hcc : comb' = comb := by
            have hk1 : getString ['+'] comb' = getString ['+'] comb := by
              rw [← hk, h]
            exact getString_injOn '+' connected
              (fun x hx => ⟨(hids x hx).1, (hids x hx).2.1⟩) comb' hsub' hne'
              comb hsub hcne hk1
          subst hcc
          rw [h, if_neg (by omega)]
  · apply lookupMap_eq_of_unique
    · refine ⟨(getString defaultCfg.formatClone comb,
        (comb, if comb.length = 1 then none else some Mode.clone)), ?_, rfl⟩
      exact (mem_generateEntries defaultCfg connected _).mpr
        ⟨comb, hsub, hcne, Or.inl rfl⟩
    · intro e he hk
      obtain ⟨comb', hsub', hne', hor'⟩ :=
        (mem_generateEntries defaultCfg connected e).mp he
      rw [show defaultCfg.formatClone = ['='] from rfl,
        show defaultCfg.formatExtend = ['+'] from rfl] at hor'
      have hn' : ∀ x ∈ comb', x ≠ [] := fun x hx => (hids x (hsub'.subset hx)).1
      have hfp' : ∀ x ∈ comb', '+' ∉ x := fun x hx => (hids x (hsub'.subset hx)).2.1
      have hfe' : ∀ x ∈ comb', '=' ∉ x := fun x hx => (hids x (hsub'.subset hx)).2.2
      rcases length_one_or_two_le comb' hne' with h1' | h2'
      · exfalso
        obtain ⟨b, rfl⟩ := List.length_eq_one.mp h1'
        obtain ⟨hbne, hbplus, hbeqs⟩ := hids b (List.singleton_sublist.mp hsub')
        have he1 : e.1 = b := by
          rcases hor' with h | h
          · rw [h]
            exact getString_singleton '=' b hbne hbeqs
          · rw [h]
            exact getString_singleton '+' b hbne hbplus
        rw [he1] at hk
        rw [hk] at hbeqs
        exact hbeqs hEqKey
      · rcases hor' with h | h
        · have hcc : comb' = comb := by
            have hk1 : getString ['='] comb' = getString ['='] comb := by
              rw [← hk, h]
            exact getString_injOn '=' connected
              (fun x hx => ⟨(hids x hx).1, (hids x hx).2.2⟩) comb' hsub' hne'
              comb hsub hcne hk1
          subst hcc
          rw [h, if_neg (by omega)]
        · exfalso
          have hm : '+' ∈ e.1 := by
            rw [h]
            exact sep_mem_getString '+' comb' hn' hfp' h2'
          rw [hk] at hm
          exact hnoPlusKey hm

/-- C1 (amended to require non-empty output ids).  For connected outputs with
pairwise-distinct non-empty ids containing neither default separator, the
generator covers exactly the non-empty subsets of the connected outputs: the
generated display strings are the clone and extend strings of every subset of
size at least 2 — distinct from one another — together with exactly one
mode-less string per singleton subset (its clone and extend strings
coincide, and the map records mode `None` for it), all display strings are
pairwise distinct, and the available set has exactly
`2 * (2^N - 1 - N) + N` entries. -/
theorem c1_combination_generator (connected : List OutputId)
    (hnd : connected.Nodup)
    (hids : ∀ x ∈ connected, x ≠ [] ∧ '+' ∉ x ∧ '=' ∉ x) :
    ((generateEntries defaultCfg connected).map (fun e => e.1)).toFinset.card =
        2 * (2 ^ connected.length - 1 - connected.length) + connected.length ∧
    (∀ st : XState, st.connectedIds = connected →
      (setAvailableCombinations defaultCfg st).available.length =
        2 * (2 ^ connected.length - 1 - connected.length) + connected.length) ∧
    (∀ s, s ∈ (generateEntries defaultCfg connected).map (fun e => e.1) ↔
      ∃ comb, comb.Sublist connected ∧ comb ≠ [] ∧
        (s = getString ['='] comb ∨ s = getString ['+'] comb)) ∧
    (∀ comb, comb.Sublist connected → comb ≠ [] →
      (comb.length = 1 →
        getString ['='] comb = getString ['+'] comb ∧
        lookupMap (generateEntries defaultCfg connected) (getString ['+'] comb) =
          some (comb, none)) ∧
      (2 ≤ comb.length →
        getString ['='] comb ≠ getString ['+'] comb ∧
        lookupMap (generateEntries defaultCfg connected) (getString ['+'] comb) =
          some (comb, some Mode.extend) ∧
        lookupMap (generateEntries defaultCfg connected) (getString ['='] comb) =
          some (comb, some Mode.clone))) := by
  refine ⟨availableFinset_card connected hnd hids, ?_, ?_, ?_⟩
  · intro st hst
    show ((generateEntries defaultCfg st.connectedIds).map (fun e => e.1)).dedup.length = _
    rw [hst, ← List.card_toFinset]
    exact availableFinset_card connected hnd hids
  · intro s
    rw [mem_generatedStrings]
    simp only [show defaultCfg.formatClone = ['='] from rfl,
      show defaultCfg.formatExtend = ['+'] from rfl]
  · intro comb hsub hne
    constructor
    · intro h1
      obtain ⟨a, rfl⟩ := List.length_eq_one.mp h1
      obtain ⟨hane, hplus, heqs⟩ := hids a (List.singleton_sublist.mp hsub)
      refine ⟨?_, lookupMap_singleton connected hids a (List.singleton_sublist.mp hsub)⟩
      rw [getString_singleton '=' a hane heqs, getString_singleton '+' a hane hplus]
    · intro h2
      have hn : ∀ x ∈ comb, x ≠ [] := fun x hx => (hids x (hsub.subset hx)).1
      have hfp : ∀ x ∈ comb, '+' ∉ x := fun x hx => (hids x (hsub.subset hx)).2.1
      have hfe : ∀ x ∈ comb, '=' ∉ x := fun x hx => (hids x (hsub.subset hx)).2.2
      refine ⟨?_, (lookupMap_multi connected hids comb hsub h2).1,
        (lookupMap_multi connected hids comb hsub h2).2⟩
      intro hc
      have hm : '=' ∈ getString ['='] comb := sep_mem_getString '=' comb hn hfe h2
      rw [hc] at hm
      exact not_mem_getString '+' '=' (by decide) comb hn hfp hfe hm

/-- Witness for C1 at `connected = [A, B]`: the available set has
`2·(2²−1−2)+2 = 4` entries and the extend string `"A+B"` maps to the
combination `[A, B]` with mode extend. -/
theorem c1_combination_generator_witness :
    ((generateEntries defaultCfg [['A'], ['B']]).map (fun e => e.1)).toFinset.card =
      2 * (2 ^ 2 - 1 - 2) + 2 ∧
    lookupMap (generateEntries defaultCfg [['A'], ['B']])
      (getString ['+'] [['A'], ['B']]) = some ([['A'], ['B']], some Mode.extend) := by
  refine ⟨?_, ?_⟩
  · exact (c1_combination_generator [['A'], ['B']] (by decide) (by decide)).1
  · exact (((c1_combination_generator [['A'], ['B']] (by decide) (by decide)).2.2.2
      [['A'], ['B']] (by decide) (by decide)).2 (by decide)).2.1

/-- C1, counterexample.  With the claim's stated assumptions only (default
separators, separator-free ids), `connected = ["A", ""]` — two distinct
connected outputs, one with an empty id — yields an available set of 2
entries, not the claimed `2·(2²−1−2)+2 = 4`: the trailing-separator strip
collapses `"A+"` and `"A="` onto the singleton string `"A"`. -/
theorem c1_counterexample :
    [['A'], ([] : OutputId)].Nodup ∧
    (∀ x ∈ [['A'], ([] : OutputId)], '+' ∉ x ∧ '=' ∉ x) ∧
    ((generateEntries defaultCfg [['A'], []]).map (fun e => e.1)).toFinset.card = 2 ∧
    ¬(((generateEntries defaultCfg [['A'], []]).map (fun e => e.1)).toFinset.card =
        2 * (2 ^ 2 - 1 - 2) + 2) := by
  decide

end Xrandr
